import Mathlib

/-
Verification of the CodeCritic agent orchestration core against its design
specification.  The JavaScript source (src/extension/features/chat.js,
src/extension/tools/agentTools.js, src/extension/helpers/*.js) is shallowly
embedded below: pure functions become Lean functions, the mutable loop and
tool state become explicit state passing, and external collaborators (the
editor API, the model endpoint, JSON.parse, the file system, subprocesses)
are passed in as environment parameters, mirroring how they are injected or
imported in the source.  JavaScript numbers are modelled as Int (all code
under study uses them integrally), strings as String, and dynamically typed
values as the JsValue type below.
-/
/-! ## String helpers

Lean core's `String.trim`, `String.toLower` and friends are defined through
`Substring` positions with well-founded recursion, which the kernel cannot
evaluate; the equivalents below work on the character list so that concrete
claims can be settled by `decide`.  They model the JavaScript string methods
used by the source. -/
/-- Characters treated as whitespace by JS `String.prototype.trim` / `\s`
(ASCII subset; the inputs under study contain no exotic spaces). -/
def jsIsSpace (c : Char) : Bool :=
  c = ' ' ∨ c = '\t' ∨ c = '\n' ∨ c = '\r' ∨ c = '\x0b' ∨ c = '\x0c'

/-- JS `s.trim()`. -/
def jsTrim (s : String) : String :=
  String.mk (((s.toList.dropWhile jsIsSpace).reverse.dropWhile jsIsSpace).reverse)

/-- JS `s.toLowerCase()` (ASCII). -/
def jsLower (s : String) : String :=
  String.mk (s.toList.map Char.toLower)

/-- Decimal digit value of a character. -/
def digitVal (c : Char) : Option Nat :=
  if '0' ≤ c ∧ c ≤ '9' then some (c.toNat - '0'.toNat) else none

/-- Accumulate decimal digits; `none` input accumulator means "no digit
seen yet". -/
def digitsToNat : List Char → Option Nat → Option Nat
  | [], acc => acc
  | c :: cs, acc =>
    match digitVal c, acc with
    | some d, some a => digitsToNat cs (some (a * 10 + d))
    | some d, none => digitsToNat cs (some d)
    | none, _ => none

/-- Parse an optionally negated decimal integer; `none` models NaN. -/
def parseIntChars : List Char → Option Int
  | [] => none
  | '-' :: cs => (digitsToNat cs none).map (fun n => -(n : Int))
  | cs => (digitsToNat cs none).map (fun n => (n : Int))

/-! ## JavaScript value model -/
/-- A dynamically typed JavaScript/JSON value, as produced by `JSON.parse`
and consumed by the response parser.  Numbers are modelled as integers. -/
inductive JsValue where
  | jnull : JsValue
  | jbool (b : Bool) : JsValue
  | jnum (n : Int) : JsValue
  | jstr (s : String) : JsValue
  | jarr (xs : List JsValue) : JsValue
  | jobj (fields : List (String × JsValue)) : JsValue

open JsValue

/-- The opening brace character, `Char.ofNat 123`. -/
def lbrace : Char := Char.ofNat 123

/-- The closing brace character, `Char.ofNat 125`. -/
def rbrace : Char := Char.ofNat 125

/-- JavaScript truthiness of a value. -/
def jsTruthy : JsValue → Bool
  | jnull => false
  | jbool b => b
  | jnum n => n ≠ 0
  | jstr s => s ≠ ""
  | jarr _ => true
  | jobj _ => true

/-- Truthiness of a possibly absent (undefined) value. -/
def jsTruthyOpt : Option JsValue → Bool
  | none => false
  | some v => jsTruthy v

/-- Field access `obj.field`; `none` models `undefined`. -/
def jsGet : JsValue → String → Option JsValue
  | jobj fs, k => (fs.find? (fun p => p.1 = k)).map (fun p => p.2)
  | _, _ => none

/-- `a || b` on possibly absent values (a JS value is kept if truthy). -/
def jsOr (a b : Option JsValue) : Option JsValue :=
  match a with
  | some v => if jsTruthy v then some v else b
  | none => b

/-- `String(v)` for the values the embedded code converts.  Arrays and
objects are approximated (their stringification is never exercised by the
claims under study). -/
def jsToString : JsValue → String
  | jnull => "null"
  | jbool true => "true"
  | jbool false => "false"
  | jnum n => toString n
  | jstr s => s
  | jarr _ => ""
  | jobj _ => "[object Object]"

/-- `String(v)` where `v` may be `undefined` (JS prints "undefined", but the
embedded code only reaches this through `String(x || '')`, so absent values
become the empty string via the `||`). -/
def jsToStringOr (v : Option JsValue) (dflt : String) : String :=
  match v with
  | some w => if jsTruthy w then jsToString w else dflt
  | none => dflt

/-- `Number(v)`: `none` models NaN.  Non-integer numerals do not occur in
the inputs under study; numeric strings are converted via `String.toInt?`. -/
def jsToNum : Option JsValue → Option Int
  | none => none
  | some jnull => some 0
  | some (jbool b) => some (if b then 1 else 0)
  | some (jnum n) => some n
  | some (jstr s) => if jsTrim s = "" then some 0 else parseIntChars (jsTrim s).toList
  | some (jarr _) => none
  | some (jobj _) => none

/-! ## Todo model

From src/extension/features/chat.js: `normalizeTodoItem`, `normalizeTodoList`,
`mergeTodoLists`, `getPendingTodos`, `buildPlannerInstruction`.  The source is
dynamically typed, so `normalizeTodoItem` is embedded twice: once over raw
`JsValue` items (as fed from parsed model JSON) and once over already
normalized `{id, text, status}` records (as fed from `chatState.todos`,
whose elements are always products of a previous normalization). -/
/-- A normalized todo item: `{ id, text, status }` with `status` one of
`"pending"`/`"done"` after normalization. -/
structure TodoItem where
  id : String
  text : String
  status : String
deriving Repr, DecidableEq

/-- `normalizeTodoItem(item, index)` over a raw JSON value. -/
def normalizeTodoItemV (item : Option JsValue) (index : Nat) : Option TodoItem :=
  let isObj := match item with
    | some (jobj _) => true
    | some (jarr _) => true
    | some jnull => true
    | _ => false
  if (!jsTruthyOpt item) || (!isObj) then
    -- `return { id: `todo_${index + 1}`, text: String(item || '').trim(), status: 'pending' }`
    some { id := "todo_" ++ toString (index + 1)
         , text := jsTrim (jsToStringOr item "")
         , status := "pending" }
  else
    let v := item.getD jnull
    let text := jsTrim (jsToStringOr (jsOr (jsGet v "text") (jsOr (jsGet v "title") (jsGet v "description"))) "")
    if text = "" then none
    else
      let statusRaw := jsLower (jsToStringOr (jsGet v "status") "")
      let status := if statusRaw = "done" ∨ statusRaw = "complete" then "done" else "pending"
      let id := if jsTruthyOpt (jsGet v "id") then jsToString ((jsGet v "id").getD jnull)
                else "todo_" ++ toString (index + 1)
      some { id := id, text := text, status := status }

/-- `normalizeTodoList(input)` over a raw JSON array. -/
def normalizeTodoListV (input : List JsValue) : List TodoItem :=
  (input.enum.filterMap fun p => normalizeTodoItemV (some p.2) p.1)

/-- `normalizeTodoItem(item, index)` applied to an already normalized
`{id, text, status}` record (the shape of every element of
`chatState.todos` and of `parsed.todo`). -/
def normalizeTodoItemT (item : TodoItem) (index : Nat) : Option TodoItem :=
  let text := jsTrim item.text
  if text = "" then none
  else
    let statusRaw := jsLower item.status
    let status := if statusRaw = "done" ∨ statusRaw = "complete" then "done" else "pending"
    let id := if item.id ≠ "" then item.id else "todo_" ++ toString (index + 1)
    some { id := id, text := text, status := status }

/-- `normalizeTodoList` over `{id, text, status}` records. -/
def normalizeTodoListT (input : List TodoItem) : List TodoItem :=
  (input.enum.filterMap fun p => normalizeTodoItemT p.2 p.1)

/-- Lookup in a JS `Map` built with `new Map(pairs)`: later pairs overwrite
earlier ones, so the last binding wins. -/
def mapLast (pairs : List (String × TodoItem)) (k : String) : Option TodoItem :=
  (pairs.reverse.find? (fun p => p.1 = k)).map (fun p => p.2)

/-- Body of the `next.map` in `mergeTodoLists`: match an incoming item
against the current list by id, falling back to case-insensitive text, and
keep `done` sticky. -/
def mergeMapStep (currentList : List TodoItem) (item : TodoItem) : TodoItem :=
  let byId := currentList.map (fun it => (it.id, it))
  let byText := currentList.map (fun it => (jsLower it.text, it))
  match (mapLast byId item.id).orElse (fun _ => mapLast byText (jsLower item.text)) with
  | none => item
  | some existing =>
    { item with status := if existing.status = "done" ∨ item.status = "done" then "done" else "pending" }

/-- Body of the final `for` loop of `mergeTodoLists`: re-append `done`
items of the current list that the incoming list no longer mentions. -/
def mergeAppendStep (acc : List TodoItem) (item : TodoItem) : List TodoItem :=
  if item.status ≠ "done" then acc
  else if acc.any (fun e => e.id = item.id ∨ jsLower e.text = jsLower item.text) then acc
  else acc ++ [item]

/-- `mergeTodoLists(current, incoming)` from chat.js. -/
def mergeTodoLists (current incoming : List TodoItem) : List TodoItem :=
  let next := normalizeTodoListT incoming
  if next.isEmpty then normalizeTodoListT current
  else
    let currentList := normalizeTodoListT current
    let merged := next.map (mergeMapStep currentList)
    currentList.foldl mergeAppendStep merged

/-- `getPendingTodos(todos)` from chat.js. -/
def getPendingTodos (todos : List TodoItem) : List TodoItem :=
  todos.filter (fun item => item.status ≠ "done")

/-- `buildPlannerInstruction(todos)` from chat.js. -/
def buildPlannerInstruction (todos : List TodoItem) : String :=
  let pending := getPendingTodos todos
  if pending.isEmpty then ""
  else
    let list := String.intercalate "\n" (todos.enum.map fun p =>
      let status := if p.2.status = "done" then "done" else "pending"
      toString (p.1 + 1) ++ ". [" ++ status ++ "] " ++ p.2.text)
    let next := pending.headD { id := "", text := "", status := "" }
    String.intercalate "\n"
      [ "You are executing a TODO plan. Focus on ONE pending item at a time."
      , "Current TODOs:"
      , list
      , ""
      , "Next item to execute: " ++ next.text
      , "Work on the next item only, then return updated \x7b\"todo\":[...]\x7d with statuses."
      , "Do not repeat the TODO list without taking action; use tools to make progress." ]

/-! ## Claims C4 and C9: todo merge monotonicity / completeness -/
/-- Claim C4 as stated: once an item is `done` in the current list, merging
with an incoming `pending` item of the same id or same case-insensitive
text yields an item that is still `done`; no merge reverts a done item. -/
def ClaimC4 : Prop :=
  ∀ (cur inc : List TodoItem) (d x : TodoItem),
    d ∈ normalizeTodoListT cur → d.status = "done" →
    x ∈ normalizeTodoListT inc → x.status ≠ "done" →
    (x.id = d.id ∨ jsLower x.text = jsLower d.text) →
    ∀ m ∈ mergeTodoLists cur inc,
      (m.id = d.id ∨ jsLower m.text = jsLower d.text) → m.status = "done"

/-- Claim C9 as stated: merging with a non-empty incoming list never
silently drops an item of the current list — every current item has a
representative (by id or case-insensitive text) in the merged result. -/
def ClaimC9 : Prop :=
  ∀ (cur inc : List TodoItem), inc ≠ [] →
    ∀ c ∈ cur, ∃ m ∈ mergeTodoLists cur inc,
      m.id = c.id ∨ jsLower m.text = jsLower c.text

/-! ## Balanced-brace scanners

From src/extension/features/chat.js: `extractTodoFromText` (lines 1499-1548)
and `extractToolCallsFromText` (lines 1621-1676).  Both walk the text one
character at a time with state `{depth, start, inString, escape}`.  The
source guards the escape update with `ch === '\\\\'`: `ch` is a single
character while the literal `'\\\\'` denotes the two-character string of two
backslashes, so the comparison never holds and the escape flag is never
set.  The embedding keeps the branch, parameterized by the character test:
`escTestCode` is the comparison as compiled from the source (never true),
`escTestSpec` is the single-backslash test the specification describes. -/
/-- The escape test as the source has it: comparing one character with the
two-character string `\\` never succeeds. -/
def escTestCode (_ch : Char) : Bool := false

/-- The escape test as the specification describes it: a backslash starts
an escape sequence. -/
def escTestSpec (ch : Char) : Bool := ch = '\\'

/-- `typeof v === 'object'` (arrays and `null` included). -/
def isObjTypeof : JsValue → Bool
  | jobj _ => true
  | jarr _ => true
  | jnull => true
  | _ => false

/-- `Array.isArray(v)` extraction. -/
def getArr : Option JsValue → Option (List JsValue)
  | some (jarr xs) => some xs
  | _ => none

/-- `src.slice(a, b)` on a character list. -/
def sliceChars (cs : List Char) (a b : Nat) : List Char :=
  (cs.drop a).take (b - a)

/-- Scanner state of the range-collecting loop of `extractTodoFromText`. -/
structure ScanSt where
  depth : Nat
  start : Option Nat
  inString : Bool
  escape : Bool
  ranges : List (Nat × Nat)

/-- One character step of the range-collecting scanner loop. -/
def scanStep (escTest : Char → Bool) (st : ScanSt) (ic : Nat × Char) : ScanSt :=
  let i := ic.1
  let ch := ic.2
  if st.inString then
    if st.escape then { st with escape := false }
    else if escTest ch then { st with escape := true }
    else if ch = '"' then { st with inString := false }
    else st
  else if ch = '"' then { st with inString := true }
  else if ch = lbrace then
    let st := if st.depth = 0 then { st with start := some i } else st
    { st with depth := st.depth + 1 }
  else if ch = rbrace ∧ st.depth > 0 then
    let depth := st.depth - 1
    if depth = 0 ∧ st.start.isSome then
      { st with
          depth := depth
          start := none
          ranges := st.ranges ++ [(st.start.getD 0, i + 1)] }
    else { st with depth := depth }
  else st

/-- Top-level `{...}` spans of `src` found outside string literals: the
first loop of `extractTodoFromText`. -/
def scanTopLevelRanges (escTest : Char → Bool) (src : String) : List (Nat × Nat) :=
  (src.toList.enum.foldl (scanStep escTest)
    { depth := 0, start := none, inString := false, escape := false, ranges := [] }).ranges

/-- The second loop of `extractTodoFromText`: try each span as JSON and
return the first with a non-empty normalized todo list. -/
def todoFromRanges (parse : String → Option JsValue) (full : List Char) :
    List (Nat × Nat) → Option (List TodoItem × (Nat × Nat))
  | [] => none
  | (a, b) :: rest =>
    let chunk := String.mk (sliceChars full a b)
    match parse chunk with
    | some v =>
      if jsTruthy v ∧ isObjTypeof v then
        match (getArr (jsGet v "todo")).orElse (fun _ => getArr (jsGet v "todos")) with
        | some arr =>
          let normalized := normalizeTodoListV arr
          if normalized.isEmpty then todoFromRanges parse full rest
          else some (normalized, (a, b))
        | none => todoFromRanges parse full rest
      else todoFromRanges parse full rest
    | none => todoFromRanges parse full rest

/-- `extractTodoFromText(text)` from chat.js, with `safeJsonParse`
(`JSON.parse` behind a try/catch) supplied as the `parse` oracle. -/
def extractTodoFromText (parse : String → Option JsValue) (text : String) :
    Option (List TodoItem × (Nat × Nat)) :=
  todoFromRanges parse text.toList (scanTopLevelRanges escTestCode text)

/-- Scanner state of `extractToolCallsFromText`, which checks each closing
span for a `toolCalls` array as it is found. -/
structure TcScanSt where
  depth : Nat
  start : Option Nat
  inString : Bool
  escape : Bool
  toolCalls : List JsValue
  ranges : List (Nat × Nat)

/-- One character step of the `extractToolCallsFromText` scanner. -/
def tcScanStep (escTest : Char → Bool) (parse : String → Option JsValue)
    (full : List Char) (st : TcScanSt) (ic : Nat × Char) : TcScanSt :=
  let i := ic.1
  let ch := ic.2
  if st.inString then
    if st.escape then { st with escape := false }
    else if escTest ch then { st with escape := true }
    else if ch = '"' then { st with inString := false }
    else st
  else if ch = '"' then { st with inString := true }
  else if ch = lbrace then
    let st := if st.depth = 0 then { st with start := some i } else st
    { st with depth := st.depth + 1 }
  else if ch = rbrace ∧ st.depth > 0 then
    let depth := st.depth - 1
    if depth = 0 ∧ st.start.isSome then
      let a := st.start.getD 0
      let chunk := String.mk (sliceChars full a (i + 1))
      match parse chunk with
      | some v =>
        if jsTruthy v ∧ isObjTypeof v then
          match getArr (jsGet v "toolCalls") with
          | some calls =>
            { st with
                depth := depth
                start := none
                toolCalls := st.toolCalls ++ calls
                ranges := st.ranges ++ [(a, i + 1)] }
          | none => { st with depth := depth, start := none }
        else { st with depth := depth, start := none }
      | none => { st with depth := depth, start := none }
    else { st with depth := depth }
  else st

/-- The excision loop of `extractToolCallsFromText`: remove the consumed
spans from the text, keeping everything between and after them. -/
def exciseRanges (cs : List Char) : List (Nat × Nat) → Nat → List Char
  | [], cursor => cs.drop cursor
  | (a, b) :: rest, cursor =>
    (if a > cursor then sliceChars cs cursor a else []) ++ exciseRanges cs rest b

/-- `extractToolCallsFromText(text)` from chat.js (the compiled behavior:
the escape branch is dead code, see `escTestCode`). -/
def extractToolCallsFromText (parse : String → Option JsValue) (text : String) :
    Option (List JsValue × String) :=
  let full := text.toList
  let st := full.enum.foldl (tcScanStep escTestCode parse full)
    { depth := 0, start := none, inString := false, escape := false,
      toolCalls := [], ranges := [] }
  if st.toolCalls.isEmpty then none
  else some (st.toolCalls, jsTrim (String.mk (exciseRanges full st.ranges 0)))

/-- One span test of the spec-modelled extractor: does the span parse as an
object with a `toolCalls` array? -/
def tcHit (parse : String → Option JsValue) (full : List Char) (r : Nat × Nat) :
    Option ((Nat × Nat) × List JsValue) :=
  let chunk := String.mk (sliceChars full r.1 r.2)
  match parse chunk with
  | some v =>
    if jsTruthy v ∧ isObjTypeof v then
      match getArr (jsGet v "toolCalls") with
      | some calls => some (r, calls)
      | none => none
    else none
  | none => none

/-- Modelled from the spec (section 4.2, embedded JSON scan): the scanner
tracks string state "respecting backslash escapes"; each top-level span
found outside strings that parses to an object with a `toolCalls` array
contributes its calls and is excised from the surrounding text. -/
def extractToolCallsFromTextSpec (parse : String → Option JsValue) (text : String) :
    Option (List JsValue × String) :=
  let full := text.toList
  let hits := (scanTopLevelRanges escTestSpec text).filterMap (tcHit parse full)
  let calls := hits.flatMap (fun hit => hit.2)
  if calls.isEmpty then none
  else some (calls, jsTrim (String.mk (exciseRanges full (hits.map (fun hit => hit.1)) 0)))

/-! ## Claim C1: the balanced-brace scanner and string escapes -/
/-- C1 failing input: a string literal containing an escaped quote and a
decoy brace, followed by a real top-level `toolCalls` object.  The raw text
is `A "x\"}" {"toolCalls":[{"tool":"t","args":{}}]}`. -/
def c1Input : String :=
  "A \"x\\\"\x7d\" \x7b\"toolCalls\":[\x7b\"tool\":\"t\",\"args\":\x7b\x7d\x7d]\x7d"

/-- The real top-level JSON object embedded in `c1Input`. -/
def c1Chunk : String :=
  "\x7b\"toolCalls\":[\x7b\"tool\":\"t\",\"args\":\x7b\x7d\x7d]\x7d"

/-- The tool call carried by `c1Chunk`. -/
def c1Call : JsValue := jobj [("tool", jstr "t"), ("args", jobj [])]

/-- `JSON.parse c1Chunk`. -/
def c1Json : JsValue := jobj [("toolCalls", jarr [c1Call])]

/-- The prose left over once the object span is excised: `A "x\"}"`. -/
def c1Rest : String := "A \"x\\\"\x7d\""

/-- A concrete `JSON.parse` oracle correct on the C1 object. -/
def c1Parse : String → Option JsValue :=
  fun s => if s = c1Chunk then some c1Json else none

/-! ## Claim C10: search-query normalization

From src/extension/features/chat.js lines 2201-2218 (`isLikelyFileQuery`,
`normalizeToolCall`); src/extension/tools/agentTools.js lines 38-46 has an
identical `isLikelyFileQuery` (same tests, via `exec` instead of `test`). -/
/-- `[a-z0-9]` with the `i` flag. -/
def alnumI (c : Char) : Bool :=
  ('a' ≤ c ∧ c ≤ 'z') ∨ ('A' ≤ c ∧ c ≤ 'Z') ∨ ('0' ≤ c ∧ c ≤ '9')

/-- The extension test as the source has it: `/\\.([a-z0-9]{1,6})$/i`, i.e.
a literal backslash, any character except a line terminator, then one to
six alphanumerics running to the end of the string. -/
def extTestCode (raw : String) : Bool :=
  let cs := raw.toList
  (List.range cs.length).any fun i =>
    match cs.drop i with
    | '\\' :: c :: rest =>
      c ≠ '\n' ∧ c ≠ '\r' ∧ 1 ≤ rest.length ∧ rest.length ≤ 6 ∧ rest.all alnumI
    | _ => false

/-- Modelled from the spec: the file-extension test the dispatcher is
described to use ("has a path separator or extension"), i.e. the regex
`/\.([a-z0-9]{1,6})$/i`: a literal dot then one to six alphanumerics at
the end. -/
def extTestSpec (raw : String) : Bool :=
  let cs := raw.toList
  (List.range cs.length).any fun i =>
    match cs.drop i with
    | '.' :: rest => 1 ≤ rest.length ∧ rest.length ≤ 6 ∧ rest.all alnumI
    | _ => false

/-- `isLikelyFileQuery(query)` from chat.js / agentTools.js. -/
def isLikelyFileQuery (query : String) : Bool :=
  let raw := jsTrim query
  if raw = "" then false
  else if raw.toList.any jsIsSpace then false
  else if raw.toList.contains '/' ∨ raw.toList.contains '\\' then true
  else extTestCode raw

/-- Modelled from the spec: `isLikelyFileQuery` with the extension test
the spec describes. -/
def isLikelyFileQuerySpec (query : String) : Bool :=
  let raw := jsTrim query
  if raw = "" then false
  else if raw.toList.any jsIsSpace then false
  else if raw.toList.contains '/' ∨ raw.toList.contains '\\' then true
  else extTestSpec raw

/-- Replace or append a field of an object (JS `{ ...args, k: v }`). -/
def jsSetField (v : JsValue) (k : String) (w : JsValue) : JsValue :=
  match v with
  | jobj fs =>
    if fs.any (fun p => p.1 = k) then jobj (fs.map fun p => if p.1 = k then (k, w) else p)
    else jobj (fs ++ [(k, w)])
  | other => other

/-- `normalizeToolCall(call)` from chat.js.  (`{ ...call.args }` copies an
object; non-object or falsy `args` become `{}` — array args, which spread
to index-keyed objects and occur in no input under study, are approximated
by `{}`.) -/
def normalizeToolCall (call : JsValue) : JsValue :=
  if ¬ jsTruthy call then call
  else
    match jsGet call "tool" with
    | some (jstr tool) =>
      let args := match jsGet call "args" with
        | some (jobj fs) => jobj fs
        | _ => jobj []
      if tool = "search" then
        let query := jsTrim (jsToStringOr (jsGet args "query") "")
        if isLikelyFileQuery query then
          jobj [("tool", jstr "locate_file"), ("args", jsSetField args "query" (jstr query))]
        else jobj [("tool", jstr tool), ("args", args)]
      else jobj [("tool", jstr tool), ("args", args)]
    | _ => call

/-! ## Diff engine

From src/extension/tools/agentTools.js lines 66-224: `splitLines`,
`buildSimpleDiff`, `buildUnifiedDiff`.  The unified-diff computation is
split into named pieces (prefix/suffix trim, LCS table, backtrack, hunk
grouping) mirroring the source's sections; `buildUnifiedDiffCore` captures
the three outcomes of the source function (empty result, the simple-diff
fallback past the cell budget, and the hunk lines of the DP path) and
`buildUnifiedDiff` applies the final truncation step to the hunk lines. -/
/-- JS `s.split(/\r?\n/)` on the character list (always at least one
fragment). -/
def splitRN : List Char → List (List Char)
  | [] => [[]]
  | '\r' :: '\n' :: rest => [] :: splitRN rest
  | '\n' :: rest => [] :: splitRN rest
  | c :: rest =>
    match splitRN rest with
    | [] => [[c]]
    | h :: t => (c :: h) :: t

/-- JS `String(text).split(/\r?\n/)`. -/
def splitReg (s : String) : List String :=
  (splitRN s.toList).map String.mk

/-- `splitLines(text)` from agentTools.js: empty text gives no lines. -/
def splitLines (text : String) : List String :=
  if text = "" then [] else splitReg text

/-- `buildUnifiedDiff` options (absent fields model absent JS options). -/
structure DiffOpts where
  contextLines : Option Int := none
  maxCells : Option Int := none
  maxDiffLines : Option Int := none

/-- `Number.isFinite(...) ? Math.max(0, Number(options.contextLines)) : 3`. -/
def optContextLines (o : DiffOpts) : Nat :=
  match o.contextLines with
  | some n => (max 0 n).toNat
  | none => 3

/-- `... ? Math.max(1000, Number(options.maxCells)) : 200000`. -/
def optMaxCells (o : DiffOpts) : Nat :=
  match o.maxCells with
  | some n => (max 1000 n).toNat
  | none => 200000

/-- `... ? Math.max(50, Number(options.maxDiffLines)) : 400`. -/
def optMaxDiffLines (o : DiffOpts) : Nat :=
  match o.maxDiffLines with
  | some n => (max 50 n).toNat
  | none => 400

/-- `buildSimpleDiff(oldText, newText)` from agentTools.js. -/
def buildSimpleDiff (oldText newText : String) : String :=
  let oldLines := splitLines oldText
  let newLines := splitLines newText
  let diffLines :=
    (if oldText ≠ "" then oldLines.map (fun l => "-" ++ l) else []) ++
    (if newText ≠ "" then newLines.map (fun l => "+" ++ l) else [])
  if diffLines.isEmpty then "" else String.intercalate "\n" diffLines

/-- The leading-prefix trim loop of `buildUnifiedDiff`. -/
def commonPreLen : List String → List String → Nat
  | a :: as, b :: bs => if a = b then commonPreLen as bs + 1 else 0
  | _, _ => 0

/-- One run of the suffix-trim loop, on the reversed line lists; counts the
iterations of `while (oldSuffix >= prefix && newSuffix >= prefix && ...)`. -/
def sufLoop (pre : Nat) : List String → List String → Int → Int → Nat
  | a :: ras, b :: rbs, oldIdx, newIdx =>
    if oldIdx ≥ (pre : Int) ∧ newIdx ≥ (pre : Int) ∧ a = b then
      sufLoop pre ras rbs (oldIdx - 1) (newIdx - 1) + 1
    else 0
  | _, _, _, _ => 0

/-- Number of common trailing lines trimmed by `buildUnifiedDiff` (the
suffix loop, bounded below by the prefix index). -/
def commonSufLen (old new : List String) (pre : Nat) : Nat :=
  sufLoop pre old.reverse new.reverse ((old.length : Int) - 1) ((new.length : Int) - 1)

/-- One row of the LCS table, computed right to left from the row below
(`dp[i][j] = old[i]==new[j] ? dp[i+1][j+1]+1 : max(dp[i+1][j], dp[i][j+1])`). -/
def lcsRowGo (o : String) : List String → List Nat → List Nat
  | [], _ => [0]
  | nj :: ns, below =>
    let tail := lcsRowGo o ns below.tail
    let v := if o = nj then below.tail.headD 0 + 1 else max (below.headD 0) (tail.headD 0)
    v :: tail

/-- The LCS table of `buildUnifiedDiff`, rows `0..n` (row `n` all zero). -/
def lcsTable (oldMid newMid : List String) : List (List Nat) :=
  oldMid.foldr (fun o acc => lcsRowGo o newMid (acc.headD []) :: acc)
    [List.replicate (newMid.length + 1) 0]

/-- `dp[i][j]` lookup. -/
def dpGet (table : List (List Nat)) (i j : Nat) : Nat :=
  (((table.drop i).headD []).drop j).headD 0

/-- A diff operation (`{type: 'context'|'del'|'add', line}`). -/
inductive DiffOp where
  | context (line : String) : DiffOp
  | del (line : String) : DiffOp
  | add (line : String) : DiffOp
deriving Repr, DecidableEq

/-- The greedy LCS backtrack of `buildUnifiedDiff` (on ties the old line is
deleted before the new one is added), including the two trailing loops
that flush the remaining old/new lines. -/
def backtrack (table : List (List Nat)) (oldMid newMid : List String) :
    Nat → Nat → Nat → List DiffOp
  | 0, i, j => (oldMid.drop i).map DiffOp.del ++ (newMid.drop j).map DiffOp.add
  | fuel + 1, i, j =>
    if i < oldMid.length ∧ j < newMid.length then
      if oldMid.getD i "" = newMid.getD j "" then
        DiffOp.context (oldMid.getD i "") :: backtrack table oldMid newMid fuel (i + 1) (j + 1)
      else if dpGet table (i + 1) j ≥ dpGet table i (j + 1) then
        DiffOp.del (oldMid.getD i "") :: backtrack table oldMid newMid fuel (i + 1) j
      else
        DiffOp.add (newMid.getD j "") :: backtrack table oldMid newMid fuel i (j + 1)
    else (oldMid.drop i).map DiffOp.del ++ (newMid.drop j).map DiffOp.add

/-- A diff op annotated with its 1-based old/new line positions. -/
structure DiffEntry where
  op : DiffOp
  oldPos : Nat
  newPos : Nat
deriving Repr, DecidableEq

/-- `entries` construction: annotate each op with running old/new
positions. -/
def buildEntries : List DiffOp → Nat → Nat → List DiffEntry
  | [], _, _ => []
  | DiffOp.context l :: rest, oldPos, newPos =>
    ⟨DiffOp.context l, oldPos, newPos⟩ :: buildEntries rest (oldPos + 1) (newPos + 1)
  | DiffOp.del l :: rest, oldPos, newPos =>
    ⟨DiffOp.del l, oldPos, newPos⟩ :: buildEntries rest (oldPos + 1) newPos
  | DiffOp.add l :: rest, oldPos, newPos =>
    ⟨DiffOp.add l, oldPos, newPos⟩ :: buildEntries rest oldPos (newPos + 1)

/-- `entry.type === 'context'`. -/
def isContextOp : DiffOp → Bool
  | DiffOp.context _ => true
  | _ => false

/-- `entry.type !== 'add'` (an old-side line). -/
def isOldSide : DiffOp → Bool
  | DiffOp.add _ => false
  | _ => true

/-- `entry.type !== 'del'` (a new-side line). -/
def isNewSide : DiffOp → Bool
  | DiffOp.del _ => false
  | _ => true

/-- The `changeIndexes` collection loop. -/
def changeIdxGo : List DiffEntry → Nat → List Nat
  | [], _ => []
  | e :: rest, idx =>
    (if isContextOp e.op then [] else [idx]) ++ changeIdxGo rest (idx + 1)

/-- The hunk-range merging loop of `buildUnifiedDiff`: a context window
around each change index, merged when ranges touch or overlap. -/
def hunkRanges (changeIdx : List Nat) (entriesLen ctx : Nat) : List (Nat × Nat) :=
  (changeIdx.foldl (fun acc idx =>
    let s := idx - ctx
    let e := min (entriesLen - 1) (idx + ctx)
    match acc with
    | [] => [(s, e)]
    | (ps, pe) :: rest =>
      if s > pe + 1 then (s, e) :: (ps, pe) :: rest
      else (ps, max pe e) :: rest) []).reverse

/-- The per-hunk output: the `@@` header then the prefixed body lines. -/
def hunkLines (entries : List DiffEntry) (r : Nat × Nat) : List String :=
  let slice := (entries.drop r.1).take (r.2 + 1 - r.1)
  let first := slice.headD ⟨DiffOp.context "", 1, 1⟩
  let oldCount := (slice.filter (fun e => isOldSide e.op)).length
  let newCount := (slice.filter (fun e => isNewSide e.op)).length
  let header := "@@ -" ++ toString first.oldPos ++ "," ++ toString oldCount ++
    " +" ++ toString first.newPos ++ "," ++ toString newCount ++ " @@"
  header :: slice.map (fun e =>
    match e.op with
    | DiffOp.context l => " " ++ l
    | DiffOp.add l => "+" ++ l
    | DiffOp.del l => "-" ++ l)

/-- The three outcomes of `buildUnifiedDiff` before the final truncation
step: an empty diff, the simple-diff fallback past the cell budget, or the
hunk lines of the DP path. -/
inductive DiffResult where
  | empty : DiffResult
  | simple (text : String) : DiffResult
  | hunks (dl : List String) : DiffResult
deriving Repr, DecidableEq

/-- `buildUnifiedDiff(oldText, newText, options)` up to (excluding) the
truncation step. -/
def buildUnifiedDiffCore (oldText newText : String) (opts : DiffOpts) : DiffResult :=
  let contextLines := optContextLines opts
  let maxCells := optMaxCells opts
  let oldLines := splitLines oldText
  let newLines := splitLines newText
  if oldLines.isEmpty ∧ newLines.isEmpty then DiffResult.empty
  else
    let pre := commonPreLen oldLines newLines
    let cnt := commonSufLen oldLines newLines pre
    let oldMid := (oldLines.take (oldLines.length - cnt)).drop pre
    let newMid := (newLines.take (newLines.length - cnt)).drop pre
    if oldMid.length * newMid.length > maxCells then
      DiffResult.simple (buildSimpleDiff oldText newText)
    else
      let table := lcsTable oldMid newMid
      let ops := (oldLines.take pre).map DiffOp.context ++
        backtrack table oldMid newMid (oldMid.length + newMid.length) 0 0 ++
        (oldLines.drop (oldLines.length - cnt)).map DiffOp.context
      let entries := buildEntries ops 1 1
      let changeIdx := changeIdxGo entries 0
      if changeIdx.isEmpty then DiffResult.empty
      else
        let ranges := hunkRanges changeIdx entries.length contextLines
        DiffResult.hunks (ranges.flatMap (hunkLines entries))

/-- `buildUnifiedDiff(oldText, newText, options)` from agentTools.js. -/
def buildUnifiedDiff (oldText newText : String) (opts : DiffOpts) : String :=
  match buildUnifiedDiffCore oldText newText opts with
  | DiffResult.empty => ""
  | DiffResult.simple t => t
  | DiffResult.hunks dl =>
    if dl.length > optMaxDiffLines opts then
      String.intercalate "\n" (dl.take (optMaxDiffLines opts) ++ [" ..."])
    else String.intercalate "\n" dl

/-! ## Claim C8: diff truncation -/
/-- `s` starts with `p` (character-list test, JS `startsWith`). -/
def strStartsWith (s p : String) : Bool :=
  p.toList.isPrefixOf s.toList

/-- C8 old text: line `b` replaced and 24 isolated deletions, producing 25
hunks whose lines total 51 when grouped with zero context lines. -/
def c8OldLines : List String :=
  ["u0", "b"] ++
    ((List.range 24).flatMap fun k => ["u" ++ toString (k + 1), "d" ++ toString (k + 1)]) ++
    ["u25"]

/-- C8 new text: `b` becomes `c`, all `d*` lines removed. -/
def c8NewLines : List String :=
  ["u0", "c"] ++ (List.range 25).map (fun k => "u" ++ toString (k + 1))

/-- C8 old text. -/
def c8Old : String := String.intercalate "\n" c8OldLines

/-- C8 new text. -/
def c8New : String := String.intercalate "\n" c8NewLines

/-- C8 options: zero context lines, 50-line diff budget (the source clamps
the budget to at least 50). -/
def c8Opts : DiffOpts := { contextLines := some 0, maxDiffLines := some 50 }

/-- The diff lines of the C8 pair before truncation. -/
def c8Dl : List String :=
  match buildUnifiedDiffCore c8Old c8New c8Opts with
  | DiffResult.hunks dl => dl
  | _ => []

/-- Claim C8 as stated: past the diff-line budget the output is the
truncated lines with an ellipsis marker appended, and the truncation never
retains a hunk `@@` header while cutting all of that hunk's body — in
particular the last retained line is never a header. -/
def ClaimC8 : Prop :=
  ∀ (oldT newT : String) (opts : DiffOpts) (dl : List String),
    buildUnifiedDiffCore oldT newT opts = DiffResult.hunks dl →
    dl.length > optMaxDiffLines opts →
    buildUnifiedDiff oldT newT opts =
      String.intercalate "\n" (dl.take (optMaxDiffLines opts) ++ [" ..."]) ∧
    ¬ strStartsWith ((dl.take (optMaxDiffLines opts)).getLastD "") "@@" = true

/-! ## Revert ledger and mutating tools

From src/extension/tools/agentTools.js (`createToolRunner`): the closure
state `revertChanges`/`revertOrder` becomes `ToolState`, the injected
helpers (`resolveWorkspacePathForTool`, `toWorkspaceRelativePath`,
`requestApproval`) and the external editor/file-system/subprocess calls
become `ToolEnv` fields.  The workspace is modelled as a map from path to
text content with LF line endings; document positions are character
offsets. -/
/-- A string-keyed association map with JS `Map` semantics (both the
workspace file map and the revert ledger are modelled this way). -/
def amGet {α : Type} (m : List (String × α)) (k : String) : Option α :=
  (m.find? (fun e => e.1 = k)).map (fun e => e.2)

/-- Set a key: replace in place, or append when new. -/
def amSet {α : Type} (m : List (String × α)) (k : String) (v : α) : List (String × α) :=
  if m.any (fun e => e.1 = k) then m.map (fun e => if e.1 = k then (k, v) else e)
  else m ++ [(k, v)]

/-- Remove a key. -/
def amDel {α : Type} (m : List (String × α)) (k : String) : List (String × α) :=
  m.filter (fun e => e.1 ≠ k)

/-- The workspace file state: path to content. -/
abbrev FsT := List (String × String)

/-- Read a file. -/
def fsGet (fs : FsT) (p : String) : Option String := amGet fs p

/-- Write (create or overwrite) a file. -/
def fsSet (fs : FsT) (p c : String) : FsT := amSet fs p c

/-- Delete a file. -/
def fsDel (fs : FsT) (p : String) : FsT := amDel fs p

/-- One file of a `RevertEntry`: `{ path, existed, content }`. -/
structure RevertFile where
  path : String
  existed : Bool
  content : String
deriving Repr, DecidableEq

/-- A `RevertEntry` payload: `{ files: [...] }`. -/
structure RevertChange where
  files : List RevertFile
deriving Repr, DecidableEq

/-- The tool-runner closure state. -/
structure ToolState where
  fs : FsT
  revertChanges : List (String × RevertChange)
  revertOrder : List String
  idCounter : Nat
deriving DecidableEq

/-- External collaborators of the tool runner: injected path helpers, the
approval gate outcome, editor file-system error text, and the effects of
subprocesses and the rename provider. -/
structure ToolEnv where
  resolvePath : Option JsValue → Option String
  relPath : String → String
  approve : Bool
  fsErr : String
  workspaceRoot : Option String
  execOut : String
  execEffect : FsT → FsT
  patchApplied : Bool
  patchEffect : FsT → FsT
  patchOut : String
  renameEdit : Option (FsT → FsT)
  resolvePatchTarget : String → String → Option String
  freshId : Nat → String

/-- `MAX_REVERTS` from agentTools.js. -/
def MAX_REVERTS : Nat := 40

/-- JS `Map.get` on the revert ledger. -/
def mapGetRC (m : List (String × RevertChange)) (k : String) : Option RevertChange :=
  amGet m k

/-- JS `Map.set` on the revert ledger. -/
def mapSetRC (m : List (String × RevertChange)) (k : String) (v : RevertChange) :
    List (String × RevertChange) :=
  amSet m k v

/-- JS `Map.delete` on the revert ledger. -/
def mapDelRC (m : List (String × RevertChange)) (k : String) : List (String × RevertChange) :=
  amDel m k

/-- `registerRevertChange(change)` from agentTools.js: empty changes record
nothing; the ring is bounded by `MAX_REVERTS`, evicting the oldest id.  The
generated id (`Date.now()`/`Math.random()`) is modelled by `env.freshId`
over a running counter. -/
def registerRevertChange (env : ToolEnv) (st : ToolState) (change : RevertChange) :
    String × ToolState :=
  if change.files.isEmpty then ("", st)
  else
    let id := env.freshId st.idCounter
    let m := mapSetRC st.revertChanges id change
    let order := st.revertOrder ++ [id]
    if order.length > MAX_REVERTS then
      let oldest := order.headD ""
      (id, { st with
        revertChanges := if oldest ≠ "" then mapDelRC m oldest else m
        revertOrder := order.tail
        idCounter := st.idCounter + 1 })
    else
      (id, { st with revertChanges := m, revertOrder := order, idCounter := st.idCounter + 1 })

/-- `formatRevertTag(id)` from agentTools.js. -/
def formatRevertTag (id : String) : String :=
  if jsTrim id ≠ "" then "\n\n[[revert:" ++ jsTrim id ++ "]]" else ""

/-- One file of `revertChange`: re-delete a created file (the editor delete
throws when the file is already gone) or restore the saved content. -/
def revertFileStep (env : ToolEnv) (acc : FsT × List String) (f : RevertFile) :
    FsT × List String :=
  if f.path = "" then acc
  else
    let rel := env.relPath f.path
    if ¬ f.existed then
      match fsGet acc.1 f.path with
      | some _ => (fsDel acc.1 f.path, acc.2 ++ ["Removed " ++ rel ++ "."])
      | none => (acc.1, acc.2 ++ ["Remove failed for " ++ rel ++ ": " ++ env.fsErr])
    else (fsSet acc.1 f.path f.content, acc.2 ++ ["Restored " ++ rel ++ "."])

/-- `revertChange(id)` from agentTools.js. -/
def revertChange (env : ToolEnv) (st : ToolState) (id : String) : ToolState × String :=
  let key := jsTrim id
  if key = "" then (st, "Revert failed: missing change id.")
  else
    match mapGetRC st.revertChanges key with
    | none => (st, "Revert failed: change not found or expired.")
    | some change =>
      let out := change.files.foldl (revertFileStep env) (st.fs, [])
      ({ st with fs := out.1, revertChanges := mapDelRC st.revertChanges key },
        if ¬ out.2.isEmpty then "Revert complete.\n" ++ String.intercalate "\n" out.2
        else "Revert complete.")

/-- `buildDiffBlock(oldText, newText)` from agentTools.js. -/
def buildDiffBlock (oldText newText : String) : String :=
  let diffText := buildUnifiedDiff oldText newText { contextLines := some 3 }
  if diffText = "" then "" else "```diff\n" ++ diffText ++ "\n```"

/-- Character offset of the start of 0-based line `n`. -/
def lineStartOff (lines : List (List Char)) (n : Nat) : Nat :=
  ((lines.take n).map (fun l => l.length + 1)).sum

/-- The largest `k` (at most the given bound) for which the lines just
before the edited range duplicate the first `k` new lines — the
`prefixTrim` loop of `toolEditFile`. -/
def trimMatchPre (beforeLines newLines : List String) : Nat → Nat
  | 0 => 0
  | k + 1 =>
    if beforeLines.drop (beforeLines.length - (k + 1)) = newLines.take (k + 1) then k + 1
    else trimMatchPre beforeLines newLines k

/-- The `suffixTrim` loop of `toolEditFile`. -/
def trimMatchSuf (afterLines newLines : List String) : Nat → Nat
  | 0 => 0
  | k + 1 =>
    if afterLines.take (k + 1) = newLines.drop (newLines.length - (k + 1)) then k + 1
    else trimMatchSuf afterLines newLines k

/-- `toolEditFile(args)` from agentTools.js (lines 888-995), on the
file-map model: line-range replacement with duplicate-context trimming,
then snapshot registration. -/
def toolEditFile (env : ToolEnv) (st : ToolState) (args : JsValue) : ToolState × String :=
  match env.resolvePath (jsGet args "path") with
  | none => (st, "Edit failed: invalid or out-of-workspace path.")
  | some fullPath =>
    match jsToNum (jsGet args "startLine"), jsToNum (jsGet args "endLine") with
    | some startLine, some endLine =>
      if endLine < startLine then (st, "Edit failed: endLine must be >= startLine.")
      else
        let rawNewText := jsToStringOr (jsGet args "newText") ""
        match fsGet st.fs fullPath with
        | none => (st, "Edit failed: " ++ env.fsErr)
        | some beforeDocText =>
          let docLineCs := splitRN beforeDocText.toList
          let maxLine := max 1 docLineCs.length
          let safeStart := (min (max 1 startLine) (maxLine : Int)).toNat
          let safeEnd := (min (max (safeStart : Int) endLine) (maxLine : Int)).toNat
          let docLines := docLineCs.map String.mk
          let newLines := (splitRN rawNewText.toList).map String.mk
          let beforeLines := docLines.take (safeStart - 1)
          let preTrim := trimMatchPre beforeLines newLines
            (min beforeLines.length newLines.length)
          let afterLines := docLines.drop safeEnd
          let sufTrim := trimMatchSuf afterLines newLines
            (min afterLines.length (newLines.length - preTrim))
          let normalizedLines := (newLines.take (newLines.length - sufTrim)).drop preTrim
          let newText := String.intercalate "\n" normalizedLines
          if ¬ env.approve then (st, "Edit canceled by user.")
          else
            let startOff := lineStartOff docLineCs (safeStart - 1)
            let endOff := lineStartOff docLineCs (safeEnd - 1) +
              (docLineCs.getD (safeEnd - 1) []).length
            let afterDocText := String.mk

              (beforeDocText.toList.take startOff ++ newText.toList ++
                beforeDocText.toList.drop endOff)
            let diff := buildDiffBlock beforeDocText afterDocText
            let trimNote := if preTrim ≠ 0 ∨ sufTrim ≠ 0 then
              "\n\nNote: trimmed " ++ toString preTrim ++ " leading and " ++ toString sufTrim ++
                " trailing line(s) that duplicated adjacent content."
              else ""
            let reg := registerRevertChange env
              { st with fs := fsSet st.fs fullPath afterDocText }
              { files := [{ path := fullPath, existed := true, content := beforeDocText }] }
            (reg.2, "Edit applied to " ++ env.relPath fullPath ++ " (lines " ++
              toString safeStart ++ "-" ++ toString safeEnd ++ ")." ++
              (if diff ≠ "" then "\n\n" ++ diff else "") ++ trimNote ++ formatRevertTag reg.1)
    | _, _ => (st, "Edit failed: startLine and endLine are required numbers.")

/-- The `position`/`range` argument object of the text tools: the named
object argument when present, else an empty object. -/
def jsObjArg (args : JsValue) (k : String) : JsValue :=
  match jsGet args k with
  | some (jobj fs) => jobj fs
  | _ => jobj []

/-- `pickNumber(a) ?? pickNumber(b)`: the first numeric of two fields. -/
def jsNum2 (a b : Option JsValue) : Option Int :=
  match jsToNum a with
  | some n => some n
  | none => jsToNum b

/-- The first numeric of three fields. -/
def jsNum3 (a b c : Option JsValue) : Option Int :=
  match jsToNum a with
  | some n => some n
  | none => jsNum2 b c

/-- `clampPosition(doc, line, character, allowEnd)` from agentTools.js,
returning a 0-based (line, character) pair. -/
def clampPosition (docLineCs : List (List Char)) (line character : Int) (allowEnd : Bool) :
    Nat × Nat :=
  let maxLine := max 1 docLineCs.length
  let l := if line = 0 then 1 else line
  let safeLine := (min (max 1 l) (maxLine : Int)).toNat
  let lineLen := (docLineCs.getD (safeLine - 1) []).length
  let maxChar := if allowEnd then lineLen + 1 else max 1 lineLen
  let c := if character = 0 then 1 else character
  let safeChar := (min (max 1 c) (maxChar : Int)).toNat
  (safeLine - 1, safeChar - 1)

/-- `toolInsertText(args)` from agentTools.js (lines 1001-1051). -/
def toolInsertText (env : ToolEnv) (st : ToolState) (args : JsValue) : ToolState × String :=
  match env.resolvePath (jsGet args "path") with
  | none => (st, "Insert text failed: invalid or out-of-workspace path.")
  | some fullPath =>
    let text := jsToStringOr (jsGet args "text") ""
    let pos := jsObjArg args "position"
    let line := jsNum2 (jsGet pos "line") (jsGet args "line")
    let character := jsNum2 (jsGet pos "character") (jsGet args "character")
    match line, character with
    | some l, some c =>
      match fsGet st.fs fullPath with
      | none => (st, "Insert text failed: " ++ env.fsErr)
      | some beforeDocText =>
        let docLineCs := splitRN beforeDocText.toList
        let p := clampPosition docLineCs l c true
        if ¬ env.approve then (st, "Insert text canceled by user.")
        else
          let off := lineStartOff docLineCs p.1 + p.2
          let afterDocText := String.mk
            (beforeDocText.toList.take off ++ text.toList ++ beforeDocText.toList.drop off)
          let diff := buildDiffBlock beforeDocText afterDocText
          let reg := registerRevertChange env
            { st with fs := fsSet st.fs fullPath afterDocText }
            { files := [{ path := fullPath, existed := true, content := beforeDocText }] }
          (reg.2, "Inserted text into " ++ env.relPath fullPath ++ " at " ++
            toString (p.1 + 1) ++ ":" ++ toString (p.2 + 1) ++ "." ++
            (if diff ≠ "" then "\n\n" ++ diff else "") ++ formatRevertTag reg.1)
    | _, _ => (st, "Insert text failed: position.line and position.character are required.")

/-- `toolReplaceRange(args)` from agentTools.js (lines 1052-1114). -/
def toolReplaceRange (env : ToolEnv) (st : ToolState) (args : JsValue) : ToolState × String :=
  match env.resolvePath (jsGet args "path") with
  | none => (st, "Replace range failed: invalid or out-of-workspace path.")
  | some fullPath =>
    let text := jsToStringOr (jsGet args "text") ""
    let rangeArg := jsObjArg args "range"
    let startLine := jsNum2 (jsGet rangeArg "startLine") (jsGet args "startLine")
    let startChar := jsNum3 (jsGet rangeArg "startChar") (jsGet rangeArg "startCharacter")
      (jsGet args "startChar")
    let endLine := jsNum2 (jsGet rangeArg "endLine") (jsGet args "endLine")
    let endChar := jsNum3 (jsGet rangeArg "endChar") (jsGet rangeArg "endCharacter")
      (jsGet args "endChar")
    match startLine, startChar, endLine, endChar with
    | some sl, some sc, some el, some ec =>
      match fsGet st.fs fullPath with
      | none => (st, "Replace range failed: " ++ env.fsErr)
      | some beforeDocText =>
        let docLineCs := splitRN beforeDocText.toList
        let sp := clampPosition docLineCs sl sc true
        let ep := clampPosition docLineCs el ec true
        if ep.1 < sp.1 ∨ (ep.1 = sp.1 ∧ ep.2 < sp.2) then
          (st, "Replace range failed: end position must be after start position.")
        else if ¬ env.approve then (st, "Replace range canceled by user.")
        else
          let so := lineStartOff docLineCs sp.1 + sp.2
          let eo := lineStartOff docLineCs ep.1 + ep.2
          let afterDocText := String.mk
            (beforeDocText.toList.take so ++ text.toList ++ beforeDocText.toList.drop eo)
          let diff := buildDiffBlock beforeDocText afterDocText
          let reg := registerRevertChange env
            { st with fs := fsSet st.fs fullPath afterDocText }
            { files := [{ path := fullPath, existed := true, content := beforeDocText }] }
          (reg.2, "Replaced range in " ++ env.relPath fullPath ++ "." ++
            (if diff ≠ "" then "\n\n" ++ diff else "") ++ formatRevertTag reg.1)
    | _, _, _, _ => (st, "Replace range failed: range start/end line/char are required.")

/-- The text of the `ReferenceError` thrown inside `toolWriteFile`: the
snapshot registration reads the undeclared variable `existed` (the local is
named `exists`), so the write commits and the catch block reports this
message, recording no revert entry. -/
def refErrMsg : String := "existed is not defined"

/-- `toolWriteFile(args)` from agentTools.js (lines 1152-1223).  Both
write paths reach `registerRevertChange({ files: [{ path, existed, ... }]})`
after writing the file; `existed` is not a variable in scope (the local is
`exists`), so evaluating the object literal throws a `ReferenceError` that
the surrounding catch turns into a `Write failed:` result — after the file
content was already changed. -/
def toolWriteFile (env : ToolEnv) (st : ToolState) (args : JsValue) : ToolState × String :=
  match env.resolvePath (jsGet args "path") with
  | none => (st, "Write failed: invalid or out-of-workspace path.")
  | some fullPath =>
    let content := jsToStringOr (jsGet args "content") ""
    let overwrite := jsTruthyOpt (jsGet args "overwrite")
    let append := jsTruthyOpt (jsGet args "append")
    let fileExists := (fsGet st.fs fullPath).isSome
    if ¬ env.approve then (st, "Write canceled by user.")
    else if append then
      let existingContent := if fileExists then (fsGet st.fs fullPath).getD "" else ""
      let next := existingContent ++ content
      ({ st with fs := fsSet st.fs fullPath next }, "Write failed: " ++ refErrMsg)
    else if fileExists ∧ ¬ overwrite then
      (st, "Write failed: " ++ env.relPath fullPath ++ " already exists (set overwrite=true).")
    else
      ({ st with fs := fsSet st.fs fullPath content }, "Write failed: " ++ refErrMsg)

/-- `toolDeleteFile(args)` from agentTools.js (lines 1243-1281): content is
read before the delete, the `RevertEntry` is registered after it. -/
def toolDeleteFile (env : ToolEnv) (st : ToolState) (args : JsValue) : ToolState × String :=
  match env.resolvePath (jsGet args "path") with
  | none => (st, "Delete failed: invalid or out-of-workspace path.")
  | some fullPath =>
    let rel := env.relPath fullPath
    match fsGet st.fs fullPath with
    | none => (st, "Delete failed: " ++ rel ++ " not found.")
    | some existingContent =>
      if ¬ env.approve then (st, "Delete canceled by user.")
      else
        let diff := buildDiffBlock existingContent ""
        let reg := registerRevertChange env
          { st with fs := fsDel st.fs fullPath }
          { files := [{ path := fullPath, existed := true, content := existingContent }] }
        (reg.2, "Deleted " ++ rel ++ "." ++
          (if diff ≠ "" then "\n\n" ++ diff else "") ++ formatRevertTag reg.1)

/-- `toolMoveFile(args)` from agentTools.js (lines 1282-1303): approval,
`createDirectory`, `rename` — no snapshot is taken and no revert entry is
registered. -/
def toolMoveFile (env : ToolEnv) (st : ToolState) (args : JsValue) : ToolState × String :=
  match env.resolvePath (jsGet args "from"), env.resolvePath (jsGet args "to") with
  | some fromPath, some toPath =>
    let overwrite := jsTruthyOpt (jsGet args "overwrite")
    if ¬ env.approve then (st, "Move canceled by user.")
    else
      match fsGet st.fs fromPath with
      | none => (st, "Move failed: " ++ env.fsErr)
      | some content =>
        if (fsGet st.fs toPath).isSome ∧ ¬ overwrite then (st, "Move failed: " ++ env.fsErr)
        else
          ({ st with fs := fsSet (fsDel st.fs fromPath) toPath content },
            "Moved " ++ env.relPath fromPath ++ " → " ++ env.relPath toPath ++ ".")
  | _, _ => (st, "Move failed: invalid or out-of-workspace path.")

/-- `toolCopyFile(args)` from agentTools.js (lines 1534-1555): approval,
`createDirectory`, `copy` — no snapshot, no revert entry. -/
def toolCopyFile (env : ToolEnv) (st : ToolState) (args : JsValue) : ToolState × String :=
  match env.resolvePath (jsGet args "from"), env.resolvePath (jsGet args "to") with
  | some fromPath, some toPath =>
    let overwrite := jsTruthyOpt (jsGet args "overwrite")
    if ¬ env.approve then (st, "Copy canceled by user.")
    else
      match fsGet st.fs fromPath with
      | none => (st, "Copy failed: " ++ env.fsErr)
      | some content =>
        if (fsGet st.fs toPath).isSome ∧ ¬ overwrite then (st, "Copy failed: " ++ env.fsErr)
        else
          ({ st with fs := fsSet st.fs toPath content },
            "Copied " ++ env.relPath fromPath ++ " → " ++ env.relPath toPath ++ ".")
  | _, _ => (st, "Copy failed: invalid or out-of-workspace path.")

/-- `toolCreateDir(args)` from agentTools.js (lines 1224-1242): directory
creation only (directories are not tracked in the file-map model); no
revert entry. -/
def toolCreateDir (env : ToolEnv) (st : ToolState) (args : JsValue) : ToolState × String :=
  match env.resolvePath (jsGet args "path") with
  | none => (st, "Create dir failed: invalid or out-of-workspace path.")
  | some fullPath =>
    if ¬ env.approve then (st, "Create dir canceled by user.")
    else (st, "Directory created: " ++ env.relPath fullPath ++ ".")

/-- The raw `cwd` argument string of `run_command`/`apply_patch`. -/
def rawCwdOf (args : JsValue) : String :=
  if jsTruthyOpt (jsGet args "cwd") then jsToString ((jsGet args "cwd").getD jnull) else ""

/-- The resolved working directory: the resolved `cwd` argument when given,
else the workspace root. -/
def cwdOf (env : ToolEnv) (args : JsValue) : Option String :=
  if rawCwdOf args ≠ "" then env.resolvePath (some (jstr (rawCwdOf args))) else env.workspaceRoot

/-- The trimmed patch text of `apply_patch`: the `patch` argument or the
`diff` fallback. -/
def patchTextOf (args : JsValue) : String :=
  jsTrim (jsToStringOr (jsOr (jsGet args "patch") (jsGet args "diff")) "")

/-- `toolRunCommand(args)` from agentTools.js (lines 1557-1620): the
subprocess result text and workspace effect come from the environment; no
revert entry is registered. -/
def toolRunCommand (env : ToolEnv) (st : ToolState) (args : JsValue) : ToolState × String :=
  let command := jsTrim (jsToStringOr (jsGet args "command") "")
  if command = "" then (st, "Run failed: command is required.")
  else
    match cwdOf env args with
    | none => (st, "Run failed: invalid or missing workspace cwd.")
    | some _ =>
      if ¬ env.approve then (st, "Command canceled by user.")
      else ({ st with fs := env.execEffect st.fs }, env.execOut)

/-- `toolRenameApply(args)` from agentTools.js (lines 763-785): the rename
provider's workspace edit comes from the environment; no revert entry. -/
def toolRenameApply (env : ToolEnv) (st : ToolState) (args : JsValue) : ToolState × String :=
  let newName := jsTrim (jsToStringOr (jsGet args "newName") "")
  if newName = "" then (st, "Rename apply failed: newName is required.")
  else
    match env.resolvePath (jsOr (jsGet args "uri") (jsGet args "path")) with
    | none => (st, "Rename apply failed: invalid or out-of-workspace path.")
    | some _ =>
      match env.renameEdit with
      | none => (st, "Rename apply: no edit returned.")
      | some eff =>
        if ¬ env.approve then (st, "Rename canceled by user.")
        else ({ st with fs := eff st.fs }, "Rename applied.")

/-- `limitDiffLines(text, maxLines)` from agentTools.js. -/
def limitDiffLines (text : String) (maxLines : Nat) : String × Bool :=
  let lines := splitReg text
  let limit := max 20 maxLines
  if lines.length ≤ limit then (text, false)
  else (String.intercalate "\n" (lines.take limit) ++ "\n...", true)

/-- `normalizePatchPath(raw)` from agentTools.js. -/
def normalizePatchPath (raw : String) : String :=
  let trimmed := jsTrim raw
  if trimmed = "" ∨ trimmed = "/dev/null" then ""
  else
    let unquoted := String.mk
      (((trimmed.toList.dropWhile (fun c => c = '"')).reverse.dropWhile
        (fun c => c = '"')).reverse)
    match unquoted.toList with
    | 'a' :: '/' :: rest => String.mk rest
    | 'b' :: '/' :: rest => String.mk rest
    | _ => unquoted

/-- A `--- old` / `+++ new` pair found in a patch. -/
structure PatchTarget where
  oldPath : String
  newPath : String
deriving Repr, DecidableEq

/-- The line scan of `extractPatchTargets`. -/
def extractPatchTargetsGo : List String → String → List PatchTarget
  | [], _ => []
  | line :: rest, pendingOld =>
    if strStartsWith line "--- " then
      extractPatchTargetsGo rest (normalizePatchPath (String.mk (line.toList.drop 4)))
    else if strStartsWith line "+++ " then
      { oldPath := pendingOld, newPath := normalizePatchPath (String.mk (line.toList.drop 4)) }
        :: extractPatchTargetsGo rest ""
    else extractPatchTargetsGo rest pendingOld

/-- `extractPatchTargets(patch)` from agentTools.js. -/
def extractPatchTargets (patch : String) : List PatchTarget :=
  extractPatchTargetsGo (splitReg patch) ""

/-- Insertion-ordered deduplication (JS `Set` iteration order). -/
def dedupe (l : List String) : List String :=
  l.foldl (fun acc x => if acc.contains x then acc else acc ++ [x]) []

/-- The resolved workspace-contained target paths of a patch (the
`targetPaths` set of `toolApplyPatch`); empty when the workspace root is
unknown. -/
def patchTargetPaths (env : ToolEnv) (cwd : String) (patch : String) : List String :=
  if env.workspaceRoot.isNone then []
  else
    dedupe ((extractPatchTargets patch).flatMap fun t =>
      (([t.oldPath, t.newPath].filter (fun s => s ≠ "")).filterMap
        (env.resolvePatchTarget cwd)))

/-- The pre-state snapshot `beforeFiles` of `toolApplyPatch`. -/
def patchBeforeFiles (fs : FsT) (paths : List String) : List RevertFile :=
  paths.map fun full =>
    { path := full, existed := (fsGet fs full).isSome, content := (fsGet fs full).getD "" }

/-- `toolApplyPatch(args)` from agentTools.js (lines 1387-1502): snapshot
every resolved target before handing the patch to `git apply`/`patch`
(modelled by `env.patchApplied`/`env.patchEffect`/`env.patchOut`), then
register the snapshot on success. -/
def toolApplyPatch (env : ToolEnv) (st : ToolState) (args : JsValue) : ToolState × String :=
  let patch := patchTextOf args
  if patch = "" then (st, "Apply patch failed: patch content is empty.")
  else
    match cwdOf env args with
    | none => (st, "Apply patch failed: invalid or missing workspace cwd.")
    | some cwdPath =>
      if ¬ env.approve then (st, "Apply patch canceled by user.")
      else
        let targetPaths := patchTargetPaths env cwdPath patch
        let beforeFiles := patchBeforeFiles st.fs targetPaths
        if ¬ env.patchApplied then
          (st, if env.patchOut ≠ "" then env.patchOut else "Apply patch failed.")
        else
          let limited := limitDiffLines patch 400
          let diff := if limited.1 ≠ "" then "```diff\n" ++ limited.1 ++ "\n```" else ""
          let note := if limited.2 then "\n\nPatch diff truncated." else ""
          let suffix := if diff ≠ "" then "\n\n" ++ diff ++ note else ""
          let reg := registerRevertChange env
            { st with fs := env.patchEffect st.fs } { files := beforeFiles }
          (reg.2, if env.patchOut ≠ "" then
              "Patch applied.\n" ++ env.patchOut ++ suffix ++ formatRevertTag reg.1
            else "Patch applied." ++ suffix ++ formatRevertTag reg.1)

/-- A mutating tool "captures a RevertEntry snapshot of every file it is
about to touch": whenever running the tool changes the content of some
path (ledger not yet at its ring bound), the resulting ledger holds an
entry whose files include that path with the pre-state existed flag and
content. -/
def capturesRevert (T : ToolEnv → ToolState → JsValue → ToolState × String) : Prop :=
  ∀ (env : ToolEnv) (st : ToolState) (args : JsValue) (p : String),
    st.revertOrder.length < MAX_REVERTS →
    fsGet (T env st args).1.fs p ≠ fsGet st.fs p →
    ∃ id ch f, mapGetRC (T env st args).1.revertChanges id = some ch ∧
      f ∈ ch.files ∧ f.path = p ∧
      f.existed = (fsGet st.fs p).isSome ∧ f.content = (fsGet st.fs p).getD ""

/-- A tool that never touches the revert ledger. -/
def ledgerUntouched (T : ToolEnv → ToolState → JsValue → ToolState × String) : Prop :=
  ∀ (env : ToolEnv) (st : ToolState) (args : JsValue),
    (T env st args).1.revertChanges = st.revertChanges ∧
    (T env st args).1.revertOrder = st.revertOrder

/-- A concrete path resolver: accepts any string argument verbatim. -/
def sampleResolve : Option JsValue → Option String
  | some (jstr s) => some s
  | _ => none

/-- A concrete tool environment: approval granted, idle subprocess and
patch collaborators, counter-derived revert ids. -/
def sampleToolEnv : ToolEnv :=
  { resolvePath := sampleResolve
    relPath := fun s => s
    approve := true
    fsErr := "err"
    workspaceRoot := some "/w"
    execOut := "ran"
    execEffect := fun fs => fs
    patchApplied := false
    patchEffect := fun fs => fs
    patchOut := ""
    renameEdit := none
    resolvePatchTarget := fun _ _ => none
    freshId := fun n => "id" ++ toString n }

/-- A one-file workspace with an empty revert ledger. -/
def sampleSt : ToolState :=
  { fs := [("a.txt", "A")], revertChanges := [], revertOrder := [], idCounter := 0 }

/-- `move_file` arguments: move a.txt to b.txt. -/
def sampleMoveArgs : JsValue := jobj [("from", jstr "a.txt"), ("to", jstr "b.txt")]

/-- `edit_file` arguments: replace line 1 of a.txt with "B". -/
def sampleEditArgs : JsValue :=
  jobj [("path", jstr "a.txt"), ("startLine", jnum 1), ("endLine", jnum 1),
    ("newText", jstr "B")]

/-- A ledger holding one create-entry (existed = false) for b.txt, which
meanwhile exists with content "X". -/
def sampleCreateSt : ToolState :=
  { fs := [("b.txt", "X")]
    revertChanges := [("R", { files := [{ path := "b.txt", existed := false, content := "" }] })]
    revertOrder := ["R"]
    idCounter := 0 }

/-- The spec's C3 property: every one of the eleven mutating tools captures
a revert snapshot of every file it touches before committing. -/
def ClaimC3 : Prop :=
  capturesRevert toolEditFile ∧ capturesRevert toolInsertText ∧
  capturesRevert toolReplaceRange ∧ capturesRevert toolCopyFile ∧
  capturesRevert toolApplyPatch ∧ capturesRevert toolWriteFile ∧
  capturesRevert toolCreateDir ∧ capturesRevert toolDeleteFile ∧
  capturesRevert toolMoveFile ∧ capturesRevert toolRunCommand ∧
  capturesRevert toolRenameApply

/-! ## Agent loop

From src/extension/features/chat.js: `runAgentTurn` (lines 2277-2527) and
its helpers `parseAgentResponse`, `parseTaggedToolCalls`, `stripCodeFence`,
`isBareTodoResponse`, `stripTodoJsonFromText`, `trimChatMessagesForModel`,
`formatToolResultForUi`, `limitToolOutput`, together with
`extractFirstJsonPayload` from helpers/llm.js, `limitToolOutput` from
agentTools.js and the configuration getters from helpers/context.js.
External collaborators (the model endpoint, `JSON.parse`, the per-call
tool runner, the workspace diagnostics, the rendering of a tool-call
description) are injected through an `AgentEnv`; `runToolCall` executions
are additionally logged in a write-only `execLog` field so that theorems
can speak about how often a command was actually executed. -/
/-- A `{role, content}` chat message. -/
structure ChatMsg where
  role : String
  content : String
deriving Repr, DecidableEq

/-- `getAgentMaxSteps()` from helpers/context.js over the raw configured
value (`none` models a NaN config). -/
def getAgentMaxSteps (raw : Option Int) : Nat :=
  match raw with
  | none => 6
  | some r => (max 1 (min 50 r)).toNat

/-- `getChatHistoryCharLimit()` from helpers/context.js. -/
def getChatHistoryCharLimit (raw : Option Int) : Nat :=
  match raw with
  | none => 32000
  | some r => (max 0 r).toNat

/-- The backwards accumulation loop of `trimChatMessagesForModel`. -/
def trimScanGo (limit : Nat) : List ChatMsg → Nat → List ChatMsg → List ChatMsg
  | [], _, out => out
  | m :: rest, total, out =>
    if total + m.content.length > limit then trimScanGo limit rest total out
    else
      let out := out ++ [m]
      let total := total + m.content.length
      if total ≥ limit then out else trimScanGo limit rest total out

/-- `trimChatMessagesForModel(messages, maxChars)` from chat.js (line 3666):
keep a suffix-biased selection of messages within the character budget; a
zero budget keeps only the last message, and an oversized last message is
kept as its last `limit` characters. -/
def trimChatMessagesForModel (messages : List ChatMsg) (maxChars : Nat) : List ChatMsg :=
  if messages.isEmpty then []
  else if maxChars = 0 then [messages.getLastD { role := "", content := "" }]
  else
    match messages.reverse with
    | [] => []
    | lastM :: restRev =>
      if lastM.content.length > maxChars then
        [{ role := lastM.role,
           content := String.mk (lastM.content.toList.drop (lastM.content.length - maxChars)) }]
      else
        let out := [lastM]
        let total := lastM.content.length
        (if total ≥ maxChars then out else trimScanGo maxChars restRev total out).reverse

/-- `limitToolOutput(text, maxChars)` from agentTools.js. -/
def limitToolOutput (text : String) (maxChars : Nat) : String :=
  let limit := max 200 (if maxChars = 0 then 12000 else maxChars)
  if text = "" ∨ text.length ≤ limit then text
  else String.mk (text.toList.take limit) ++ "\n...[truncated]"

/-- First index at or after `start` where `pat` occurs (JS
`indexOf(pat, start)` for a non-empty pattern). -/
def idxFrom (cs pat : List Char) (start : Nat) : Option Nat :=
  ((List.range (cs.length + 1)).filter
    (fun i => decide (start ≤ i) && pat.isPrefixOf (cs.drop i))).head?

/-- Last index at or before `upTo` where `pat` occurs (JS
`lastIndexOf(pat, upTo)`). -/
def lastIdxUpTo (cs pat : List Char) (upTo : Nat) : Option Nat :=
  ((List.range (min upTo cs.length + 1)).filter
    (fun i => pat.isPrefixOf (cs.drop i))).getLast?

/-- `str.indexOf(c)` for a single character. -/
def strIdxOf (cs : List Char) (c : Char) : Option Nat :=
  cs.findIdx? (fun x => x = c)

/-- `str.lastIndexOf(c)` for a single character. -/
def strLastIdxOf (cs : List Char) (c : Char) : Option Nat :=
  match cs.reverse.findIdx? (fun x => x = c) with
  | some i => some (cs.length - 1 - i)
  | none => none

/-- The first-`open` … last-`close` slice used by `extractFirstJsonPayload`
(present only when the close strictly follows the open). -/
def firstLastSpan (cs : List Char) (o c : Char) : Option (List Char) :=
  match strIdxOf cs o, strLastIdxOf cs c with
  | some a, some b => if a < b then some (sliceChars cs a (b + 1)) else none
  | _, _ => none

/-- `extractFirstJsonPayload(text)` from helpers/llm.js: the brace span,
else the bracket span, else the empty string. -/
def extractFirstJsonPayload (text : String) : String :=
  match firstLastSpan text.toList lbrace rbrace with
  | some s => String.mk s
  | none =>
    match firstLastSpan text.toList '[' ']' with
    | some s => String.mk s
    | none => ""

/-- `safeJsonParse(text) || safeJsonParse(extractFirstJsonPayload(text))`:
the first truthy parse of the raw text or of its extracted payload.
`safeJsonParse` (JSON.parse behind a try/catch) is the `parse` oracle. -/
def jsonOrPayload (parse : String → Option JsValue) (text : String) : Option JsValue :=
  let pick := fun (o : Option JsValue) =>
    match o with
    | some v => if jsTruthy v then some v else none
    | none => none
  match pick (parse text) with
  | some v => some v
  | none => pick (parse (extractFirstJsonPayload text))

/-- The union result of the agent response parsers: a final text, a list of
raw tool-call values, a normalized todo list, and (for the tagged parser
and the brace scanner) the residual plain text. -/
structure ParsedResp where
  final : Option String
  toolCalls : Option (List JsValue)
  todo : Option (List TodoItem)
  text : Option String

/-- `parseAgentResponse(text)` from chat.js (lines 1482-1498). -/
def parseAgentResponse (parse : String → Option JsValue) (text : String) :
    Option ParsedResp :=
  match jsonOrPayload parse text with
  | none => none
  | some v =>
    if ¬ isObjTypeof v then none
    else
      let todoArr := (getArr (jsGet v "todo")).orElse (fun _ => getArr (jsGet v "todos"))
      let normalizedTodo := todoArr.map normalizeTodoListV
      match jsGet v "final" with
      | some (jstr s) =>
        some { final := some s, toolCalls := none, todo := normalizedTodo, text := none }
      | _ =>
        match jsGet v "reply" with
        | some (jstr s) =>
          some { final := some s, toolCalls := none, todo := normalizedTodo, text := none }
        | _ =>
          match getArr (jsGet v "toolCalls") with
          | some calls =>
            some { final := none, toolCalls := some calls, todo := normalizedTodo, text := none }
          | none =>
            let toolStr := match jsGet v "tool" with
              | some (jstr t) => if t ≠ "" then some t else none
              | _ => none
            match toolStr with
            | some t =>
              some { final := none
                     toolCalls := some [jobj [("tool", jstr t),
                       ("args", match jsGet v "args" with
                         | some a => if jsTruthy a then a else jobj []
                         | none => jobj [])]]
                     todo := normalizedTodo
                     text := none }
            | none =>
              match normalizedTodo with
              | some l =>
                some { final := none, toolCalls := none, todo := some l, text := none }
              | none => none

/-- An ASCII letter (the `[a-zA-Z]` class). -/
def isAsciiLetter (c : Char) : Bool :=
  ('a' ≤ c ∧ c ≤ 'z') ∨ ('A' ≤ c ∧ c ≤ 'Z')

/-- `stripCodeFence(text)` from chat.js: unwrap a full-text
```` ```lang\n…\n``` ```` fence, else return the trimmed text. -/
def stripCodeFence (text : String) : String :=
  let trimmed := jsTrim text
  if ¬ strStartsWith trimmed "```" then trimmed
  else
    let cs := trimmed.toList
    let rest := cs.drop 3
    let langLen := (rest.takeWhile isAsciiLetter).length
    match rest.drop langLen with
    | '\n' :: body =>
      if body.length ≥ 4 ∧ body.drop (body.length - 4) = ['\n', '`', '`', '`'] then
        jsTrim (String.mk (body.take (body.length - 4)))
      else trimmed
    | _ => trimmed

/-- `isBareTodoResponse(parsed, rawText)` from chat.js: a parse that is
only a todo list, whose raw text is exactly its JSON payload (modulo a
code fence). -/
def isBareTodoResponse (parsed : ParsedResp) (rawText : String) : Bool :=
  if parsed.todo.isNone then false
  else if (match parsed.final with | some f => f != "" | none => false) then false
  else if (match parsed.toolCalls with | some l => !l.isEmpty | none => false) then false
  else
    let raw := jsTrim rawText
    let jsonText := extractFirstJsonPayload raw
    if jsonText = "" then false
    else decide (stripCodeFence raw = jsTrim jsonText)

/-- `text.replace(/\n{3,}/g, '\n\n')` (fuelled by the text length). -/
def collapseNlGo : Nat → List Char → List Char
  | 0, _ => []
  | _, [] => []
  | fuel + 1, c :: rest =>
    if c = '\n' then
      let run := (rest.takeWhile (fun x => x = '\n')).length + 1
      (if run ≥ 3 then ['\n', '\n'] else List.replicate run '\n') ++
        collapseNlGo fuel (rest.drop (run - 1))
    else c :: collapseNlGo fuel rest

/-- Collapse every run of three or more newlines to two. -/
def collapseNl (cs : List Char) : List Char :=
  collapseNlGo cs.length cs

/-- `stripTodoJsonFromText(text, range)` from chat.js (lines 1550-1581):
remove the todo JSON span (widened to its surrounding code fence when the
fence contains nothing else), collapse newline runs and trim. -/
def stripTodoJsonFromText (text : String) (range : Option (Nat × Nat)) : String :=
  match range with
  | none => jsTrim text
  | some (f, t) =>
    if t ≤ f then jsTrim text
    else
      let cs := text.toList
      let fenceRes :=
        match lastIdxUpTo cs ['`', '`', '`'] f with
        | none => none
        | some fenceStart =>
          match idxFrom cs ['`', '`', '`'] t with
          | none => none
          | some fenceEnd =>
            match idxFrom cs ['\n'] (fenceStart + 3) with
            | none => none
            | some lineEnd =>
              if lineEnd < fenceEnd then
                let innerStart := lineEnd + 1
                if f ≥ innerStart ∧ t ≤ fenceEnd then
                  if jsTrim (String.mk (sliceChars cs innerStart f)) = "" ∧
                      jsTrim (String.mk (sliceChars cs t fenceEnd)) = "" then
                    some (jsTrim (String.mk
                      (collapseNl (cs.take fenceStart ++ cs.drop (fenceEnd + 3)))))
                  else none
                else none
              else none
      match fenceRes with
      | some r => r
      | none => jsTrim (String.mk (collapseNl (cs.take f ++ cs.drop t)))

/-- The `[TOOL_CALLS]` tag. -/
def tcTag : List Char := "[TOOL_CALLS]".toList

/-- The `[ARGS]` tag. -/
def argsTag : List Char := "[ARGS]".toList

/-- The cursor loop of `parseTaggedToolCalls` (fuelled - the cursor
advances every iteration). -/
def parseTaggedGo (parse : String → Option JsValue) (cs : List Char) :
    Nat → Nat → List JsValue → List (List Char) → List JsValue × List (List Char)
  | 0, _, calls, parts => (calls, parts)
  | fuel + 1, cursor, calls, parts =>
    if cursor ≥ cs.length then (calls, parts)
    else
      match idxFrom cs tcTag cursor with
      | none => (calls, parts ++ [cs.drop cursor])
      | some toolIdx =>
        let parts := parts ++ [sliceChars cs cursor toolIdx]
        let toolNameStart := toolIdx + 12
        match idxFrom cs argsTag toolNameStart with
        | none => (calls, parts ++ [cs.drop toolIdx])
        | some argsIdx =>
          let toolName := jsTrim (String.mk (sliceChars cs toolNameStart argsIdx))
          let argsStart := argsIdx + 6
          let nextTool := idxFrom cs tcTag argsStart
          let argsText := jsTrim (String.mk (match nextTool with
            | none => cs.drop argsStart
            | some n => sliceChars cs argsStart n))
          let nextCursor := match nextTool with
            | none => cs.length
            | some n => n
          if toolName ≠ "" then
            let args := match jsonOrPayload parse argsText with
              | some a => a
              | none => jobj []
            parseTaggedGo parse cs fuel nextCursor
              (calls ++ [jobj [("tool", jstr toolName), ("args", args)]]) parts
          else
            parseTaggedGo parse cs fuel nextCursor calls
              (parts ++ [sliceChars cs toolIdx nextCursor])

/-- `parseTaggedToolCalls(text)` from chat.js (lines 1583-1620). -/
def parseTaggedToolCalls (parse : String → Option JsValue) (text : String) :
    Option (List JsValue × String) :=
  let cs := text.toList
  let res := parseTaggedGo parse cs (cs.length + 1) 0 [] []
  if res.1.isEmpty then none
  else some (res.1, jsTrim (String.mk res.2.flatten))

/-- `formatToolResultForUi(tool, resultText)` from chat.js (line 2185). -/
def formatToolResultForUi (tool : String) (resultText : String) : String :=
  let label := if tool ≠ "" then "Tool result (" ++ tool ++ "):" else "Tool result:"
  let body := jsTrim resultText
  let hasFence := (idxFrom body.toList ['`', '`', '`'] 0).isSome
  if tool = "run_command" then label ++ "\n```\n" ++ body ++ "\n```"
  else if tool = "read_file" ∨ tool = "read_files" ∨ tool = "read_file_range_by_symbols" ∨
      tool = "read_output" then
    if hasFence then label ++ "\n" ++ body else label ++ "\n```\n" ++ body ++ "\n```"
  else label ++ "\n" ++ resultText

/-- The `mutatingTools` set of `runAgentTurn`. -/
def mutatingTools : List String :=
  ["edit_file", "write_file", "create_dir", "delete_file", "move_file", "apply_patch",
   "run_command"]

/-- The `verifyTools` set of `runAgentTurn`. -/
def verifyTools : List String := ["read_dir", "list_files"]

/-- `normalizedCall.tool` as a string (`none` when absent or not a
string, in which case every string comparison on it is false). -/
def callTool (c : JsValue) : Option String :=
  match jsGet c "tool" with
  | some (jstr t) => some t
  | _ => none

/-- The label passed to `formatToolResultForUi` for a call's result
(`normalizedCall.tool`; falsy values give the bare label). -/
def toolLabelOf (c : JsValue) : String :=
  match jsGet c "tool" with
  | some v => if jsTruthy v then jsToString v else ""
  | none => ""

/-- The `{command, cwd, timeoutMs}` signature of a `run_command` call
(`JSON.stringify` equality is equality of these fields; `timeoutMs` is
absent, NaN - i.e. `some none` - or a number). -/
structure CmdSig where
  command : String
  cwd : String
  timeoutMs : Option (Option Int)
deriving Repr, DecidableEq

/-- The signature computed in the `run_command` dedup branch of
`runAgentTurn`. -/
def cmdSigOf (c : JsValue) : CmdSig :=
  let argsObj := jsGet c "args"
  let a := argsObj.getD jnull
  { command := if jsTruthyOpt argsObj ∧ jsTruthyOpt (jsGet a "command")
      then jsTrim (jsToString ((jsGet a "command").getD jnull)) else ""
    cwd := if jsTruthyOpt argsObj ∧ jsTruthyOpt (jsGet a "cwd")
      then jsTrim (jsToString ((jsGet a "cwd").getD jnull)) else ""
    timeoutMs := if jsTruthyOpt argsObj ∧ jsTruthyOpt (jsGet a "timeoutMs")
      then some (jsToNum (jsGet a "timeoutMs")) else none }

/-- The dedup skip message. -/
def cmdSkipMsg : String :=
  "Skipped: command already run with the same args and no file changes since then. Make a change or ask to force a rerun."

/-- The corrective instruction pushed on a repeated bare todo. -/
def correctiveMsg : String :=
  "You are repeating the TODO list without acting. Use tools to complete the next item now. Do not return only TODO JSON."

/-- External collaborators of `runAgentTurn`. -/
structure AgentEnv where
  parse : String → Option JsValue
  callModel : List ChatMsg → String
  maxSteps : Nat
  historyLimit : Nat
  stopAt : Nat → Bool
  describe : JsValue → String
  runTool : Nat → JsValue → String
  readDirOut : String
  listFilesOut : String
  problems : List String
  todoSeedCache : List TodoItem

/-- The mutable state of one agent turn (`execLog` and `correctiveCount`
are write-only observation fields). -/
structure AgentSt where
  uiMessages : List ChatMsg
  modelMessages : List ChatMsg
  todos : List TodoItem
  lastBareTodoSignature : Option (List TodoItem)
  bareTodoRepeatCount : Nat
  lastCommandSignature : Option CmdSig
  sawMutationSinceCommand : Bool
  mutationSinceProblems : Bool
  execLog : List JsValue
  correctiveCount : Nat

/-- `applyTodoUpdate(incoming)`: merge into `chatState.todos`. -/
def applyTodoUpdate (st : AgentSt) (incoming : List TodoItem) : AgentSt :=
  { st with todos := mergeTodoLists st.todos incoming }

/-- Push a message to `modelMessages` and re-trim (the
`modelMessages.push(…); modelMessages = trimChatMessagesForModel(…)`
pattern). -/
def pushModel (hl : Nat) (st : AgentSt) (m : ChatMsg) : AgentSt :=
  { st with modelMessages := trimChatMessagesForModel (st.modelMessages ++ [m]) hl }

/-- Processing of one tool call inside the `parsed.toolCalls` branch:
describe it, track mutation flags, dedup `run_command`, otherwise run the
tool and feed its formatted result back. -/
def execToolCallStep (env : AgentEnv) (st : AgentSt) (call : JsValue) : AgentSt :=
  let nc := normalizeToolCall call
  let st := { st with uiMessages := st.uiMessages ++ [ChatMsg.mk "assistant" (env.describe nc)] }
  let toolName := callTool nc
  let isMut := match toolName with
    | some t => mutatingTools.contains t
    | none => false
  let st := if isMut then { st with mutationSinceProblems := true } else st
  if toolName = some "run_command" then
    let sig := cmdSigOf nc
    if ((match st.lastCommandSignature with | some s => s == sig | none => false) &&
        !st.sawMutationSinceCommand) then
      let resultText := formatToolResultForUi "run_command" cmdSkipMsg
      pushModel env.historyLimit
        { st with uiMessages := st.uiMessages ++ [ChatMsg.mk "assistant" resultText] }
        (ChatMsg.mk "user" resultText)
    else
      let result := env.runTool st.execLog.length nc
      let st := { st with
        execLog := st.execLog ++ [nc]
        lastCommandSignature := some sig
        sawMutationSinceCommand := false }
      let resultText := formatToolResultForUi "run_command" (limitToolOutput result 12000)
      pushModel env.historyLimit
        { st with uiMessages := st.uiMessages ++ [ChatMsg.mk "assistant" resultText] }
        (ChatMsg.mk "user" resultText)
  else
    let result := env.runTool st.execLog.length nc
    let st := { st with execLog := st.execLog ++ [nc] }
    let resultText := formatToolResultForUi (toolLabelOf nc) (limitToolOutput result 12000)
    let st := pushModel env.historyLimit
      { st with uiMessages := st.uiMessages ++ [ChatMsg.mk "assistant" resultText] }
      (ChatMsg.mk "user" resultText)
    if isMut then { st with sawMutationSinceCommand := true, mutationSinceProblems := true }
    else st

/-- The `for (const call of parsed.toolCalls)` loop, also accumulating the
`didMutate`/`didVerify` flags. -/
def execToolCalls (env : AgentEnv) (st : AgentSt) (calls : List JsValue) :
    AgentSt × Bool × Bool :=
  calls.foldl (fun acc call =>
    let nc := normalizeToolCall call
    let isMut := match callTool nc with
      | some t => mutatingTools.contains t
      | none => false
    let isVer := match callTool nc with
      | some t => verifyTools.contains t
      | none => false
    (execToolCallStep env acc.1 call, acc.2.1 || isMut, acc.2.2 || isVer))
    (st, false, false)

/-- The `parsed.toolCalls` branch of one loop step. -/
def toolCallsBranch (env : AgentEnv) (st : AgentSt) (p : ParsedResp)
    (calls : List JsValue) : AgentSt :=
  let st := { st with lastBareTodoSignature := none, bareTodoRepeatCount := 0 }
  let st := match p.todo with
    | some l => applyTodoUpdate st l
    | none => if ¬ env.todoSeedCache.isEmpty then applyTodoUpdate st env.todoSeedCache else st
  let st := if jsTrim (p.text.getD "") ≠ "" then
      { st with uiMessages := st.uiMessages ++
        [{ role := "assistant", content := jsTrim (p.text.getD "") }] }
    else st
  let r := execToolCalls env st calls
  let st := r.1
  if r.2.1 ∧ ¬ r.2.2 then
    let treeText := formatToolResultForUi "read_dir" (limitToolOutput env.readDirOut 12000)
    let filesText := formatToolResultForUi "list_files" (limitToolOutput env.listFilesOut 12000)
    { st with
        uiMessages := st.uiMessages ++
          [{ role := "assistant", content := treeText },
           { role := "assistant", content := filesText }]
        modelMessages := trimChatMessagesForModel
          (st.modelMessages ++
            [{ role := "user", content := treeText },
             { role := "user", content := filesText }]) env.historyLimit }
  else st

/-- How one step of the agent loop ended: a terminal return (`Stopped.`,
empty model response, unparseable raw text, a final message, all todos
done, and - at the loop boundary - the step limit) or a continue. -/
inductive AgentOutcome where
  | stopped
  | emptyResponse
  | rawText (text : String)
  | finalMsg (text : String)
  | allDone
  | stepLimit
deriving Repr, DecidableEq

/-- The workspace-problems feedback message. -/
def problemsText (env : AgentEnv) : String :=
  formatToolResultForUi "problems"
    ("Workspace problems (" ++ toString env.problems.length ++ "):\n" ++
      String.intercalate "\n" env.problems)

/-- Push the problems feedback and continue (the
`mutationSinceProblems` blocks of `runAgentTurn`). -/
def problemsContinue (env : AgentEnv) (st : AgentSt) : AgentSt :=
  pushModel env.historyLimit
    { st with
        mutationSinceProblems := false
        uiMessages := st.uiMessages ++ [{ role := "assistant", content := problemsText env }] }
    { role := "user", content := problemsText env }

/-- One iteration of the `for (let step = 0; …)` loop of `runAgentTurn`:
either a terminal result (with the continuation set on return) or the
state carried to the next step. -/
def runAgentStep (env : AgentEnv) (step : Nat) (st : AgentSt) :
    (AgentOutcome × AgentSt × Option (List ChatMsg)) ⊕ AgentSt :=
  if env.stopAt step then
    Sum.inl (AgentOutcome.stopped,
      { st with uiMessages := st.uiMessages ++ [{ role := "assistant", content := "Stopped." }] },
      none)
  else
    let plannerText := if ¬ (getPendingTodos st.todos).isEmpty
      then buildPlannerInstruction st.todos else ""
    let modelSeed := if plannerText ≠ ""
      then st.modelMessages ++ [{ role := "user", content := plannerText }]
      else st.modelMessages
    let assistantText := env.callModel (trimChatMessagesForModel modelSeed env.historyLimit)
    if jsTrim assistantText = "" then
      Sum.inl (AgentOutcome.emptyResponse,
        { st with uiMessages := st.uiMessages ++
            [ChatMsg.mk "assistant"
              "Error: model returned an empty response. Try another model or check the endpoint."] },
        none)
    else
      let parsed1 := match parseAgentResponse env.parse assistantText with
        | some q => some q
        | none =>
          match parseTaggedToolCalls env.parse assistantText with
          | some r => some { final := none, toolCalls := some r.1, todo := none, text := some r.2 }
          | none =>
            match extractToolCallsFromText env.parse assistantText with
            | some r => some { final := none, toolCalls := some r.1, todo := none, text := some r.2 }
            | none => none
      let todoExtraction := extractTodoFromText env.parse assistantText
      let parsed := match parsed1 with
        | some q => some q
        | none =>
          match todoExtraction with
          | some e => some { final := none, toolCalls := none, todo := some e.1, text := none }
          | none => none
      let cleanedAssistantText := match todoExtraction with
        | some e => stripTodoJsonFromText assistantText (some e.2)
        | none => assistantText
      let st := pushModel env.historyLimit st { role := "assistant", content := assistantText }
      match parsed with
      | none =>
        Sum.inl (AgentOutcome.rawText assistantText,
          { st with uiMessages := st.uiMessages ++
              [{ role := "assistant", content := assistantText }] },
          none)
      | some p =>
        let finalOk := match p.final with
          | some f => f != ""
          | none => false
        if finalOk then
          let finalText := (p.final).getD ""
          let st := match p.todo with
            | some l => applyTodoUpdate st l
            | none => if ¬ env.todoSeedCache.isEmpty then applyTodoUpdate st env.todoSeedCache
                      else st
          if st.mutationSinceProblems ∧ (getPendingTodos st.todos).isEmpty ∧
              ¬ env.problems.isEmpty then
            Sum.inr (problemsContinue env st)
          else
            Sum.inl (AgentOutcome.finalMsg finalText,
              { st with uiMessages := st.uiMessages ++
                  [{ role := "assistant", content := finalText }] },
              none)
        else
          let hasCalls := match p.toolCalls with
            | some l => !l.isEmpty
            | none => false
          if hasCalls then
            Sum.inr (toolCallsBranch env st p ((p.toolCalls).getD []))
          else
            let st := match p.todo with
              | some l => applyTodoUpdate st l
              | none => if ¬ env.todoSeedCache.isEmpty then applyTodoUpdate st env.todoSeedCache
                        else st
            let cleanedBody := if jsTrim cleanedAssistantText ≠ "" then cleanedAssistantText
              else ""
            let isBareTodo : Bool := match p.todo with
              | some _ => isBareTodoResponse p assistantText
              | none => todoExtraction.isSome && (cleanedBody = "")
            if ¬ isBareTodo then
              if st.mutationSinceProblems ∧ (getPendingTodos st.todos).isEmpty ∧
                  ¬ env.problems.isEmpty then
                Sum.inr (problemsContinue env st)
              else
                Sum.inl (AgentOutcome.rawText (if cleanedBody ≠ "" then cleanedBody
                    else assistantText),
                  { st with uiMessages := st.uiMessages ++
                      [{ role := "assistant",
                         content := if cleanedBody ≠ "" then cleanedBody else assistantText }] },
                  none)
            else
              let todoSignature := (p.todo).map normalizeTodoListT
              let st := if todoSignature.isSome ∧ todoSignature = st.lastBareTodoSignature then
                  { st with bareTodoRepeatCount := st.bareTodoRepeatCount + 1 }
                else
                  { st with bareTodoRepeatCount := 0, lastBareTodoSignature := todoSignature }
              let st := if st.bareTodoRepeatCount ≥ 1 then
                  { (pushModel env.historyLimit st { role := "user", content := correctiveMsg })
                    with correctiveCount := st.correctiveCount + 1 }
                else st
              if (getPendingTodos st.todos).isEmpty then
                if st.mutationSinceProblems ∧ ¬ env.problems.isEmpty then
                  Sum.inr (problemsContinue env st)
                else
                  Sum.inl (AgentOutcome.allDone,
                    { st with uiMessages := st.uiMessages ++
                        [{ role := "assistant", content := "All TODO items completed." }] },
                    none)
              else Sum.inr st

/-- The step loop (fuelled by the remaining step budget); exhausting the
budget returns `stepLimit`, pushes the stop message and preserves
`modelMessages` as the continuation (`setAgentContinuation` keeps a
non-empty list only). -/
def runAgentLoopGo (env : AgentEnv) :
    Nat → Nat → AgentSt → AgentOutcome × AgentSt × Option (List ChatMsg)
  | 0, _, st =>
    (AgentOutcome.stepLimit,
      { st with uiMessages := st.uiMessages ++
          [{ role := "assistant", content := "Agent stopped: too many tool steps." }] },
      if st.modelMessages.isEmpty then none else some st.modelMessages)
  | fuel + 1, step, st =>
    match runAgentStep env step st with
    | Sum.inl r => r
    | Sum.inr st2 => runAgentLoopGo env fuel (step + 1) st2

/-- `runAgentTurn(baseMessages, modelMessagesSeed)` from chat.js, with the
entry todo list (`chatState.todos`) passed explicitly. -/
def runAgentTurn (env : AgentEnv) (baseMessages modelMessagesSeed : List ChatMsg)
    (todos0 : List TodoItem) : AgentOutcome × AgentSt × Option (List ChatMsg) :=
  runAgentLoopGo env env.maxSteps 0
    { uiMessages := baseMessages
      modelMessages := if ¬ modelMessagesSeed.isEmpty then modelMessagesSeed else baseMessages
      todos := todos0
      lastBareTodoSignature := none
      bareTodoRepeatCount := 0
      lastCommandSignature := none
      sawMutationSinceCommand := false
      mutationSinceProblems := false
      execLog := []
      correctiveCount := 0 }

/-- A concrete `run_command` call. -/
def sampleRunCall : JsValue :=
  jobj [("tool", jstr "run_command"), ("args", jobj [("command", jstr "ls")])]

/-- A concrete agent environment with idle collaborators. -/
def sampleAgentEnv : AgentEnv :=
  { parse := fun _ => none
    callModel := fun _ => ""
    maxSteps := 6
    historyLimit := 32000
    stopAt := fun _ => false
    describe := fun _ => "Tool call: run_command"
    runTool := fun _ _ => "ok"
    readDirOut := ""
    listFilesOut := ""
    problems := []
    todoSeedCache := [] }

/-- The initial state of an agent turn with empty transcripts and todos. -/
def sampleAgentSt : AgentSt :=
  { uiMessages := []
    modelMessages := []
    todos := []
    lastBareTodoSignature := none
    bareTodoRepeatCount := 0
    lastCommandSignature := none
    sawMutationSinceCommand := false
    mutationSinceProblems := false
    execLog := []
    correctiveCount := 0 }

/-- The spec's C2 property: under a model stub that always returns the
same unchanged bare todo list (with a pending item), the loop emits at
most one corrective instruction, and hitting the step limit preserves
`modelMessages` as the continuation. -/
def ClaimC2 : Prop :=
  ∀ (env : AgentEnv) (base : List ChatMsg) (t : String) (p : ParsedResp)
    (inc : List TodoItem),
    (∀ ms, env.callModel ms = t) →
    (∀ n, env.stopAt n = false) →
    parseAgentResponse env.parse t = some p →
    p.final = none → p.toolCalls = none → p.todo = some inc →
    isBareTodoResponse p t = true →
    ¬ jsTrim t = "" →
    (∀ it ∈ normalizeTodoListT inc, it.status = "pending") →
    normalizeTodoListT inc ≠ [] →
    (runAgentTurn env base [] []).2.1.correctiveCount ≤ 1 ∧
    ((runAgentTurn env base [] []).1 = AgentOutcome.stepLimit →
      (runAgentTurn env base [] []).2.2 =
        some (runAgentTurn env base [] []).2.1.modelMessages)

/-- The bare-todo stub text `{"todo":[{"id":"1","text":"a","status":"pending"}]}`. -/
def c2Text : String :=
  "\x7b\"todo\":[\x7b\"id\":\"1\",\"text\":\"a\",\"status\":\"pending\"\x7d]\x7d"

/-- `JSON.parse(c2Text)`. -/
def c2Json : JsValue :=
  jobj [("todo", jarr [jobj [("id", jstr "1"), ("text", jstr "a"),
    ("status", jstr "pending")]])]

/-- The incoming todo list of the stub response. -/
def c2Inc : List TodoItem := [{ id := "1", text := "a", status := "pending" }]

/-- The parsed form of the stub response. -/
def c2P : ParsedResp :=
  { final := none, toolCalls := none, todo := some c2Inc, text := none }

/-- The stub environment: the model always answers `c2Text`, default step
budget 6 and history limit 32000. -/
def c2Env : AgentEnv :=
  { parse := fun s => if s = c2Text then some c2Json else none
    callModel := fun _ => c2Text
    maxSteps := 6
    historyLimit := 32000
    stopAt := fun _ => false
    describe := fun _ => ""
    runTool := fun _ _ => ""
    readDirOut := ""
    listFilesOut := ""
    problems := []
    todoSeedCache := [] }

/-! ## Theorems -/

/-! ## Todo merge: support lemmas -/
/-- `mergeAppendStep` on a non-`done` item is the identity. -/
theorem mergeAppendStep_pending (acc : List TodoItem) (x : TodoItem)
    (h : x.status ≠ "done") : mergeAppendStep acc x = acc := by
  simp only [mergeAppendStep]
  rw [if_pos h]

/-- `mergeAppendStep` skips a `done` item already represented in `acc`. -/
theorem mergeAppendStep_found (acc : List TodoItem) (x : TodoItem)
    (h : x.status = "done")
    (h2 : acc.any (fun e => e.id = x.id ∨ jsLower e.text = jsLower x.text) = true) :
    mergeAppendStep acc x = acc := by
  simp only [mergeAppendStep]
  rw [if_neg (by simp [h]), if_pos h2]

/-- `mergeAppendStep` appends a `done` item not yet represented in `acc`. -/
theorem mergeAppendStep_push (acc : List TodoItem) (x : TodoItem)
    (h : x.status = "done")
    (h2 : acc.any (fun e => e.id = x.id ∨ jsLower e.text = jsLower x.text) = false) :
    mergeAppendStep acc x = acc ++ [x] := by
  simp only [mergeAppendStep]
  rw [if_neg (by simp [h]), if_neg (by rw [h2]; simp)]

/-- `mapLast` over keyed pairs finds `d` when the keys are duplicate-free
and `key d = k` (JS `Map` lookup with last-binding-wins). -/
theorem mapLast_map_eq_some (key : TodoItem → String) (l : List TodoItem)
    (d : TodoItem) (k : String) (hd : d ∈ l) (hk : key d = k)
    (hnd : (l.map key).Nodup) :
    mapLast (l.map fun it => (key it, it)) k = some d := by
  induction l with
  | nil => cases hd
  | cons x xs ih =>
    simp only [List.map_cons, List.nodup_cons] at hnd
    rcases List.mem_cons.mp hd with hdx | hdxs
    · subst hdx
      have hnone : ((xs.map fun it => (key it, it)).reverse.find? fun p => p.1 = k) = none := by
        apply List.find?_eq_none.mpr
        intro p hp
        simp only [List.mem_reverse, List.mem_map] at hp
        obtain ⟨it, hit, rfl⟩ := hp
        simp only [decide_eq_true_eq]
        intro hkey
        exact hnd.1 (hk ▸ hkey ▸ List.mem_map_of_mem key hit)
      have hone : (List.find? (fun p => decide (p.1 = k)) [(key d, d)]) = some (key d, d) :=
        List.find?_cons_of_pos _ (by simp [hk])
      simp only [mapLast, List.map_cons, List.reverse_cons, List.find?_append, hnone,
        Option.none_or, hone, Option.map_some']
    · have hsome := ih hdxs hnd.2
      simp only [mapLast, Option.map_eq_some'] at hsome
      obtain ⟨pr, hpr, hpr2⟩ := hsome
      simp only [mapLast, List.map_cons, List.reverse_cons, List.find?_append, hpr,
        Option.or, Option.map_some', hpr2]

/-- `mapLast` over keyed pairs misses when no element has key `k`. -/
theorem mapLast_map_eq_none (key : TodoItem → String) (l : List TodoItem)
    (k : String) (h : ∀ c ∈ l, key c ≠ k) :
    mapLast (l.map fun it => (key it, it)) k = none := by
  have hnone : ((l.map fun it => (key it, it)).reverse.find? fun p => p.1 = k) = none := by
    apply List.find?_eq_none.mpr
    intro p hp
    simp only [List.mem_reverse, List.mem_map] at hp
    obtain ⟨it, hit, rfl⟩ := hp
    simpa using h it hit
  simp [mapLast, hnone]

/-- An incoming item whose id matches a `done` current item is merged as
`done`, provided the current ids are duplicate-free. -/
theorem mergeMapStep_done_id (currentList : List TodoItem) (x d : TodoItem)
    (hnd : (currentList.map fun it => it.id).Nodup)
    (hd : d ∈ currentList) (hstat : d.status = "done") (hid : x.id = d.id) :
    (mergeMapStep currentList x).status = "done" := by
  have hfind := mapLast_map_eq_some (fun it => it.id) currentList d x.id hd hid.symm hnd
  simp [mergeMapStep, hfind, Option.orElse, hstat]

/-- An incoming item whose id matches nothing but whose case-insensitive
text matches a `done` current item is merged as `done`, provided the
current lowercased texts are duplicate-free. -/
theorem mergeMapStep_done_text (currentList : List TodoItem) (x d : TodoItem)
    (hnd : (currentList.map fun it => jsLower it.text).Nodup)
    (hd : d ∈ currentList) (hstat : d.status = "done")
    (hnoid : ∀ c ∈ currentList, c.id ≠ x.id)
    (htext : jsLower x.text = jsLower d.text) :
    (mergeMapStep currentList x).status = "done" := by
  have hnone := mapLast_map_eq_none (fun it => it.id) currentList x.id hnoid
  have hfind := mapLast_map_eq_some (fun it => jsLower it.text) currentList d
    (jsLower x.text) hd htext.symm hnd
  simp [mergeMapStep, hnone, hfind, Option.orElse, hstat]

/-- The trailing for-loop of `mergeTodoLists` only appends entries. -/
theorem foldl_mergeAppend_suffix (l : List TodoItem) :
    ∀ acc, ∃ s, l.foldl mergeAppendStep acc = acc ++ s := by
  induction l with
  | nil => intro acc; exact ⟨[], by simp⟩
  | cons x xs ih =>
    intro acc
    simp only [List.foldl_cons]
    by_cases h1 : x.status = "done"
    · cases h2 : acc.any (fun e => e.id = x.id ∨ jsLower e.text = jsLower x.text) with
      | true =>
        rw [mergeAppendStep_found acc x h1 h2]
        exact ih acc
      | false =>
        rw [mergeAppendStep_push acc x h1 h2]
        obtain ⟨s, hs⟩ := ih (acc ++ [x])
        exact ⟨x :: s, by rw [hs, List.append_assoc]; rfl⟩
    · rw [mergeAppendStep_pending acc x h1]
      exact ih acc

/-- Every `done` item fed through the trailing for-loop of
`mergeTodoLists` is represented (by id or case-insensitive text) in the
result. -/
theorem foldl_mergeAppend_keeps (l : List TodoItem) :
    ∀ acc (d : TodoItem), d ∈ l → d.status = "done" →
    ∃ m ∈ l.foldl mergeAppendStep acc, m.id = d.id ∨ jsLower m.text = jsLower d.text := by
  induction l with
  | nil => intro _ _ hd; cases hd
  | cons x xs ih =>
    intro acc d hd hstat
    simp only [List.foldl_cons]
    rcases List.mem_cons.mp hd with hdx | hdxs
    · subst hdx
      cases h2 : acc.any (fun e => e.id = d.id ∨ jsLower e.text = jsLower d.text) with
      | true =>
        obtain ⟨m, hm, hmP⟩ := List.any_eq_true.mp h2
        rw [mergeAppendStep_found acc d hstat h2]
        obtain ⟨s, hs⟩ := foldl_mergeAppend_suffix xs acc
        exact ⟨m, hs ▸ List.mem_append_left s hm, by simpa using hmP⟩
      | false =>
        rw [mergeAppendStep_push acc d hstat h2]
        obtain ⟨s, hs⟩ := foldl_mergeAppend_suffix xs (acc ++ [d])
        refine ⟨d, hs ▸ List.mem_append_left s ?_, Or.inl rfl⟩
        simp
    · exact ih (mergeAppendStep acc x) d hdxs hstat

/-- Counterexample to C4: current `[{1,a,pending},{2,b,done}]` merged with
incoming `[{1,b,pending}]`.  The incoming item matches the done item `{2,b}`
by case-insensitive text, but its id matches the pending item `{1,a}` and
the id match takes precedence, so the merge yields `[{1,b,pending}]`: the
done status of text "b" is reverted to pending. -/
theorem mergeTodoLists_can_revert_done : ¬ ClaimC4 := by
  intro h
  have hm := h [⟨"1", "a", "pending"⟩, ⟨"2", "b", "done"⟩] [⟨"1", "b", "pending"⟩]
      ⟨"2", "b", "done"⟩ ⟨"1", "b", "pending"⟩
      (by decide) (by decide) (by decide) (by decide) (by decide)
      ⟨"1", "b", "pending"⟩ (by decide) (by decide)
  exact absurd hm (by decide)

/-- C4 amended: `mergeTodoLists` matches an incoming item first by id and
only then by case-insensitive text.  When the normalized current list has
duplicate-free ids and duplicate-free lowercased texts, an incoming item
that matches a `done` current item by id — or by text while its id matches
no current item — is merged with status `done`. -/
theorem mergeTodoLists_done_monotone (cur inc : List TodoItem)
    (hndid : ((normalizeTodoListT cur).map fun it => it.id).Nodup)
    (hndtext : ((normalizeTodoListT cur).map fun it => jsLower it.text).Nodup)
    (d : TodoItem) (hd : d ∈ normalizeTodoListT cur) (hstat : d.status = "done")
    (i : Nat) (hi : i < (normalizeTodoListT inc).length)
    (hmatch : ((normalizeTodoListT inc).get ⟨i, hi⟩).id = d.id ∨
      ((∀ c ∈ normalizeTodoListT cur, c.id ≠ ((normalizeTodoListT inc).get ⟨i, hi⟩).id) ∧
        jsLower ((normalizeTodoListT inc).get ⟨i, hi⟩).text = jsLower d.text)) :
    ∃ hj : i < (mergeTodoLists cur inc).length,
      ((mergeTodoLists cur inc).get ⟨i, hj⟩).status = "done" := by
  have hne : (normalizeTodoListT inc).isEmpty = false := by
    cases hemp : (normalizeTodoListT inc).isEmpty with
    | false => rfl
    | true =>
      rw [List.isEmpty_iff] at hemp
      rw [hemp] at hi
      cases hi
  have hmerge : mergeTodoLists cur inc =
      (normalizeTodoListT cur).foldl mergeAppendStep
        ((normalizeTodoListT inc).map (mergeMapStep (normalizeTodoListT cur))) := by
    simp only [mergeTodoLists, hne]
    rfl
  obtain ⟨s, hs⟩ := foldl_mergeAppend_suffix (normalizeTodoListT cur)
    ((normalizeTodoListT inc).map (mergeMapStep (normalizeTodoListT cur)))
  have hlenmap : i < ((normalizeTodoListT inc).map (mergeMapStep (normalizeTodoListT cur))).length := by
    simpa using hi
  have hj : i < (mergeTodoLists cur inc).length := by
    rw [hmerge, hs, List.length_append]
    exact Nat.lt_of_lt_of_le hlenmap (Nat.le_add_right _ _)
  refine ⟨hj, ?_⟩
  have heq : mergeTodoLists cur inc =
      ((normalizeTodoListT inc).map (mergeMapStep (normalizeTodoListT cur))) ++ s := by
    rw [hmerge, hs]
  have hget : (mergeTodoLists cur inc).get ⟨i, hj⟩ =
      mergeMapStep (normalizeTodoListT cur) ((normalizeTodoListT inc).get ⟨i, hi⟩) := by
    simp only [List.get_eq_getElem]
    rw [List.getElem_of_eq heq hj, List.getElem_append_left hlenmap]
    simp
  rw [hget]
  rcases hmatch with hid | ⟨hnoid, htext⟩
  · exact mergeMapStep_done_id _ _ d hndid hd hstat hid
  · exact mergeMapStep_done_text _ _ d hndtext hd hstat
      (fun c hc => hnoid c hc) htext

/-- Witness for the amended C4 at a concrete input: current
`[{1,t1,done}]`, incoming `[{1,t1,pending}]`; the merged item at index 0 is
still `done`. -/
theorem mergeTodoLists_done_monotone_witness :
    (⟨"1", "t1", "done"⟩ : TodoItem) ∈ normalizeTodoListT [⟨"1", "t1", "done"⟩] ∧
    ∃ hj : 0 < (mergeTodoLists [⟨"1", "t1", "done"⟩] [⟨"1", "t1", "pending"⟩]).length,
      ((mergeTodoLists [⟨"1", "t1", "done"⟩] [⟨"1", "t1", "pending"⟩]).get ⟨0, hj⟩).status = "done" :=
  ⟨by decide,
    mergeTodoLists_done_monotone [⟨"1", "t1", "done"⟩] [⟨"1", "t1", "pending"⟩]
      (by decide) (by decide) ⟨"1", "t1", "done"⟩ (by decide) (by decide)
      0 (by decide) (by decide)⟩

/-- Counterexample to C9: current `[{1,a,pending}]` merged with incoming
`[{2,b,pending}]` yields `[{2,b,pending}]`; the pending current item
`{1,a}` is silently dropped (no id or text match in the result). -/
theorem mergeTodoLists_drops_pending : ¬ ClaimC9 := by
  intro h
  have hm := h [⟨"1", "a", "pending"⟩] [⟨"2", "b", "pending"⟩] (by decide)
      ⟨"1", "a", "pending"⟩ (by decide)
  exact absurd hm (by decide)

/-- C9 amended: only `done` items are guaranteed to survive a merge; every
`done` item of the normalized current list has a representative (by id or
case-insensitive text) in the merged result, for any incoming list.
Pending current items absent from the incoming list are dropped. -/
theorem mergeTodoLists_keeps_done (cur inc : List TodoItem)
    (d : TodoItem) (hd : d ∈ normalizeTodoListT cur) (hstat : d.status = "done") :
    ∃ m ∈ mergeTodoLists cur inc, m.id = d.id ∨ jsLower m.text = jsLower d.text := by
  cases hne : (normalizeTodoListT inc).isEmpty with
  | true =>
    have : mergeTodoLists cur inc = normalizeTodoListT cur := by
      simp only [mergeTodoLists, hne]
      rfl
    exact ⟨d, this ▸ hd, Or.inl rfl⟩
  | false =>
    have hmerge : mergeTodoLists cur inc =
        (normalizeTodoListT cur).foldl mergeAppendStep
          ((normalizeTodoListT inc).map (mergeMapStep (normalizeTodoListT cur))) := by
      simp only [mergeTodoLists, hne]
      rfl
    rw [hmerge]
    exact foldl_mergeAppend_keeps (normalizeTodoListT cur) _ d hd hstat

/-- Witness for the amended C9 at a concrete input: the done item
`{2,b,done}` of the current list survives a merge with `[{1,c,pending}]`. -/
theorem mergeTodoLists_keeps_done_witness :
    (⟨"2", "b", "done"⟩ : TodoItem) ∈ normalizeTodoListT [⟨"1", "a", "pending"⟩, ⟨"2", "b", "done"⟩] ∧
    ∃ m ∈ mergeTodoLists [⟨"1", "a", "pending"⟩, ⟨"2", "b", "done"⟩] [⟨"1", "c", "pending"⟩],
      m.id = "2" ∨ jsLower m.text = jsLower "b" :=
  ⟨by decide,
    mergeTodoLists_keeps_done [⟨"1", "a", "pending"⟩, ⟨"2", "b", "done"⟩] [⟨"1", "c", "pending"⟩]
      ⟨"2", "b", "done"⟩ (by decide) (by decide)⟩

/-- One step of `scanStep` either leaves `ranges` unchanged or appends a
single span. -/
theorem scanStep_ranges (escT : Char → Bool) (s : ScanSt) (ic : Nat × Char) :
    (scanStep escT s ic).ranges = s.ranges ∨
      ∃ r, (scanStep escT s ic).ranges = s.ranges ++ [r] := by
  obtain ⟨i, ch⟩ := ic
  unfold scanStep
  by_cases h1 : s.inString = true
  · by_cases h2 : s.escape = true
    · simp [h1, h2]
    · by_cases h3 : escT ch = true
      · simp [h1, h2, h3]
      · by_cases h4 : ch = '"'
        · subst h4; simp [h1, h2, h3]
        · simp [h1, h2, h3, h4]
  · by_cases h4 : ch = '"'
    · subst h4; simp [h1]
    · by_cases h5 : ch = lbrace
      · subst h5
        by_cases d0 : s.depth = 0 <;> simp [h1, h4, d0]
      · by_cases h6 : ch = rbrace ∧ 0 < s.depth
        · obtain ⟨hr, hd⟩ := h6
          subst hr
          by_cases h7 : s.depth - 1 = 0 ∧ s.start.isSome = true
          · exact Or.inr ⟨(s.start.getD 0, i + 1), by simp [h1, h4, h5, hd, h7]⟩
          · simp [h1, h4, h5, hd, h7]
        · simp [h1, h4, h5, h6]

/-- Folding `scanStep` only ever appends to `ranges`. -/
theorem scanFold_ranges (escT : Char → Bool) (l : List (Nat × Char)) :
    ∀ s : ScanSt, ∃ t, (l.foldl (scanStep escT) s).ranges = s.ranges ++ t := by
  induction l with
  | nil => intro s; exact ⟨[], by simp⟩
  | cons ic rest ih =>
    intro s
    obtain ⟨t, ht⟩ := ih (scanStep escT s ic)
    rcases scanStep_ranges escT s ic with h | ⟨r, h⟩
    · exact ⟨t, by simpa [h] using ht⟩
    · exact ⟨r :: t, by rw [List.foldl_cons, ht, h, List.append_assoc]; rfl⟩

/-- When a `scanStep` step records no span, the corresponding
`tcScanStep` step performs the same control-state update and leaves the
collected tool calls and spans untouched (in particular it never consults
the JSON parser). -/
theorem tcScanStep_control (escT : Char → Bool) (parse : String → Option JsValue)
    (full : List Char) (s : ScanSt) (calls : List JsValue) (kept : List (Nat × Nat))
    (ic : Nat × Char) (h : (scanStep escT s ic).ranges = s.ranges) :
    tcScanStep escT parse full ⟨s.depth, s.start, s.inString, s.escape, calls, kept⟩ ic =
      ⟨(scanStep escT s ic).depth, (scanStep escT s ic).start, (scanStep escT s ic).inString,
        (scanStep escT s ic).escape, calls, kept⟩ := by
  obtain ⟨i, ch⟩ := ic
  unfold scanStep at h ⊢
  unfold tcScanStep
  by_cases h1 : s.inString = true
  · by_cases h2 : s.escape = true
    · simp [h1, h2]
    · by_cases h3 : escT ch = true
      · simp [h1, h2, h3]
      · by_cases h4 : ch = '"'
        · subst h4; simp [h1, h2, h3]
        · simp [h1, h2, h3, h4]
  · by_cases h4 : ch = '"'
    · subst h4; simp [h1]
    · by_cases h5 : ch = lbrace
      · subst h5
        by_cases d0 : s.depth = 0 <;> simp [h1, h4, d0]
      · by_cases h6 : ch = rbrace ∧ 0 < s.depth
        · obtain ⟨hr, hd⟩ := h6
          subst hr
          by_cases h7 : s.depth - 1 = 0 ∧ s.start.isSome = true
          · exfalso
            rw [show (if s.inString = true then
                if s.escape = true then { s with escape := false }
                else if escT rbrace = true then { s with escape := true }
                else if rbrace = '"' then { s with inString := false }
                else s
              else if rbrace = '"' then { s with inString := true }
              else if rbrace = lbrace then
                let s := if s.depth = 0 then { s with start := some i } else s
                { s with depth := s.depth + 1 }
              else if rbrace = rbrace ∧ s.depth > 0 then
                let depth := s.depth - 1
                if depth = 0 ∧ s.start.isSome then
                  { s with
                      depth := depth
                      start := none
                      ranges := s.ranges ++ [(s.start.getD 0, i + 1)] }
                else { s with depth := depth }
              else s) = { s with
                  depth := s.depth - 1
                  start := none
                  ranges := s.ranges ++ [(s.start.getD 0, i + 1)] } from by
                simp [h1, h4, h5, hd, h7]] at h
            simp at h
          · simp [h1, h4, h5, hd, h7]
        · simp [h1, h4, h5, h6]

/-- If the parse-free scan of `l` records no spans, the tool-call scan of
`l` keeps its collected calls and spans unchanged and follows the same
control states. -/
theorem tcScanFold_no_ranges (escT : Char → Bool) (parse : String → Option JsValue)
    (full : List Char) (l : List (Nat × Char)) :
    ∀ (s : ScanSt) (calls : List JsValue) (kept : List (Nat × Nat)),
    (l.foldl (scanStep escT) s).ranges = s.ranges →
    l.foldl (tcScanStep escT parse full) ⟨s.depth, s.start, s.inString, s.escape, calls, kept⟩ =
      ⟨(l.foldl (scanStep escT) s).depth, (l.foldl (scanStep escT) s).start,
        (l.foldl (scanStep escT) s).inString, (l.foldl (scanStep escT) s).escape, calls, kept⟩ := by
  induction l with
  | nil => intro s calls kept _; rfl
  | cons ic rest ih =>
    intro s calls kept hr
    rcases scanStep_ranges escT s ic with h1 | ⟨r, h1⟩
    · have hrest : (rest.foldl (scanStep escT) (scanStep escT s ic)).ranges =
          (scanStep escT s ic).ranges := by
        rw [List.foldl_cons] at hr
        rw [hr, h1]
      rw [List.foldl_cons, List.foldl_cons, tcScanStep_control escT parse full s calls kept ic h1]
      exact ih (scanStep escT s ic) calls kept hrest
    · exfalso
      obtain ⟨t, ht⟩ := scanFold_ranges escT rest (scanStep escT s ic)
      rw [List.foldl_cons] at hr
      rw [ht, h1, List.append_assoc] at hr
      have := congrArg List.length hr
      simp at this

set_option maxRecDepth 16384 in
/-- C1: the embedded-JSON scanner does not respect backslash escapes.  The
source guards the escape flag with `ch === '\\\\'` — a single character
compared against the two-character string `\\` — so the flag is never set
and `\"` inside a string literal ends the in-string state early.  On
`c1Input`, a string literal with an escaped quote and a decoy `}` followed
by a real `toolCalls` object, the compiled scanner extracts nothing, for
every behavior of `JSON.parse`; the scanner described by the spec extracts
exactly the real object and leaves the surrounding prose. -/
theorem extractToolCalls_escape_divergence (parse : String → Option JsValue) :
    extractToolCallsFromText parse c1Input = none ∧
    (parse c1Chunk = some c1Json →
      extractToolCallsFromTextSpec parse c1Input = some ([c1Call], c1Rest)) := by
  constructor
  · have h0 : (c1Input.toList.enum.foldl (scanStep escTestCode)
        ⟨0, none, false, false, []⟩).ranges = ([] : List (Nat × Nat)) := by decide
    have h := tcScanFold_no_ranges escTestCode parse c1Input.toList c1Input.toList.enum
        ⟨0, none, false, false, []⟩ [] [] h0
    dsimp only at h
    unfold extractToolCallsFromText
    dsimp only
    rw [h]
    rfl
  · intro h
    have hhit : tcHit parse c1Input.toList (9, 47) = some ((9, 47), [c1Call]) := by
      unfold tcHit
      rw [show String.mk (sliceChars c1Input.toList 9 47) = c1Chunk from by decide]
      simp only [h]
      rfl
    unfold extractToolCallsFromTextSpec
    rw [show scanTopLevelRanges escTestSpec c1Input = [(9, 47)] from by decide]
    simp only [List.filterMap_cons, List.filterMap_nil, hhit]
    rfl

set_option maxRecDepth 16384 in
/-- Witness for `extractToolCalls_escape_divergence` at the concrete
oracle `c1Parse`. -/
theorem extractToolCalls_escape_divergence_witness :
    extractToolCallsFromText c1Parse c1Input = none ∧
    extractToolCallsFromTextSpec c1Parse c1Input = some ([c1Call], c1Rest) :=
  ⟨(extractToolCalls_escape_divergence c1Parse).1,
    (extractToolCalls_escape_divergence c1Parse).2 (by rfl)⟩

/-- C10: the extension half of the file-query heuristic is dead code.  The
regex `/\\.([a-z0-9]{1,6})$/i` demands a literal backslash before the
extension, but any query containing a backslash already returned true at
the separator test, so a bare filename such as `foo.js` (no whitespace,
a `.js` extension, no separator) is not recognized, and a `search` for it
is not redirected to `locate_file` as the spec requires. -/
theorem search_ext_query_not_redirected :
    isLikelyFileQuery "foo.js" = false ∧
    isLikelyFileQuerySpec "foo.js" = true ∧
    normalizeToolCall (jobj [("tool", jstr "search"), ("args", jobj [("query", jstr "foo.js")])]) =
      jobj [("tool", jstr "search"), ("args", jobj [("query", jstr "foo.js")])] :=
  ⟨rfl, rfl, rfl⟩

/-! ## Claim C6: diff idempotence -/
/-- The prefix trim consumes all of two identical line lists. -/
theorem commonPreLen_self (l : List String) : commonPreLen l l = l.length := by
  induction l with
  | nil => rfl
  | cons a as ih => simp [commonPreLen, ih]

/-- With the prefix already covering everything, the suffix loop stops
immediately. -/
theorem commonSufLen_self (l : List String) : commonSufLen l l l.length = 0 := by
  unfold commonSufLen
  cases hl : l.reverse with
  | nil => rfl
  | cons a ras =>
    unfold sufLoop
    rw [if_neg]
    intro ⟨h1, _⟩
    omega

/-- Entries built from context-only ops are all context entries. -/
theorem buildEntries_context (l : List String) :
    ∀ p q, ∀ e ∈ buildEntries (l.map DiffOp.context) p q, isContextOp e.op = true := by
  induction l with
  | nil => intro p q e he; cases he
  | cons a as ih =>
    intro p q e he
    simp only [List.map_cons, buildEntries] at he
    rcases List.mem_cons.mp he with rfl | hrest
    · rfl
    · exact ih (p + 1) (q + 1) e hrest

/-- `changeIdxGo` finds nothing among context-only entries. -/
theorem changeIdxGo_context (entries : List DiffEntry)
    (h : ∀ e ∈ entries, isContextOp e.op = true) :
    ∀ idx, changeIdxGo entries idx = [] := by
  induction entries with
  | nil => intro idx; rfl
  | cons e rest ih =>
    intro idx
    have he := h e (List.mem_cons_self e rest)
    simp only [changeIdxGo, he, if_pos]
    exact ih (fun x hx => h x (List.mem_cons_of_mem e hx)) (idx + 1)

/-- C6: `diff(x, x) = ""` for every text `x` and every option record —
identical texts (both empty or not) produce the empty diff. -/
theorem buildUnifiedDiff_idem (x : String) (opts : DiffOpts) :
    buildUnifiedDiff x x opts = "" := by
  have hcore : buildUnifiedDiffCore x x opts = DiffResult.empty := by
    unfold buildUnifiedDiffCore
    by_cases hL : (splitLines x).isEmpty
    · simp [hL]
    · simp only [hL, and_self, if_neg, Bool.false_eq_true, not_false_iff]
      rw [commonPreLen_self, commonSufLen_self]
      have hmid : ((splitLines x).take ((splitLines x).length - 0)).drop (splitLines x).length
          = ([] : List String) := by
        simp
      rw [hmid]
      simp only [List.length_nil, Nat.mul_zero]
      rw [if_neg (by omega)]
      have hback : backtrack (lcsTable [] []) [] [] (0 + 0) 0 0 = [] := by rfl
      rw [hback]
      have hdrop : (splitLines x).drop ((splitLines x).length - 0) = ([] : List String) := by
        simp
      rw [hdrop]
      simp only [List.map_nil, List.append_nil, List.nil_append, List.take_length]
      rw [changeIdxGo_context _ (buildEntries_context (splitLines x) 1 1) 0]
      simp
  unfold buildUnifiedDiff
  rw [hcore]

set_option maxRecDepth 16384 in
/-- Counterexample to C8: on the C8 pair with zero context lines and the
minimum budget of 50, the diff has 51 lines and the blind
`diffLines.slice(0, maxDiffLines)` cut retains the final hunk's `@@` header
as the last kept line while cutting its entire body. -/
theorem buildUnifiedDiff_truncation_splits_hunk : ¬ ClaimC8 := by
  intro h
  have hc := h c8Old c8New c8Opts c8Dl (by rfl) (by decide)
  exact absurd hc.2 (by decide)

/-- C8 amended: past the diff-line budget the output is the first
`maxDiffLines` diff lines with the ellipsis marker `" ..."` appended; the
cut is blind, so it can retain a hunk header whose body lines are all cut
(as the counterexample shows). -/
theorem buildUnifiedDiff_truncation (oldT newT : String) (opts : DiffOpts)
    (dl : List String)
    (hcore : buildUnifiedDiffCore oldT newT opts = DiffResult.hunks dl)
    (hlen : dl.length > optMaxDiffLines opts) :
    buildUnifiedDiff oldT newT opts =
      String.intercalate "\n" (dl.take (optMaxDiffLines opts) ++ [" ..."]) := by
  unfold buildUnifiedDiff
  rw [hcore]
  exact if_pos hlen

set_option maxRecDepth 16384 in
/-- Witness for `buildUnifiedDiff_truncation` at the C8 pair. -/
theorem buildUnifiedDiff_truncation_witness :
    buildUnifiedDiffCore c8Old c8New c8Opts = DiffResult.hunks c8Dl ∧
    c8Dl.length > optMaxDiffLines c8Opts ∧
    buildUnifiedDiff c8Old c8New c8Opts =
      String.intercalate "\n" (c8Dl.take (optMaxDiffLines c8Opts) ++ [" ..."]) :=
  ⟨by rfl, by decide,
    buildUnifiedDiff_truncation c8Old c8New c8Opts c8Dl (by rfl) (by decide)⟩

/-! ## Claims C3 and C7: revert snapshots -/
/-- Setting key `k` makes it readable as `v`. -/
theorem amGet_set_self {α : Type} (m : List (String × α)) (k : String) (v : α) :
    amGet (amSet m k v) k = some v := by
  unfold amGet amSet
  by_cases hk : m.any (fun e => e.1 = k)
  · rw [if_pos hk]
    induction m with
    | nil => cases hk
    | cons e rest ih =>
      by_cases he : e.1 = k
      · rw [List.map_cons, if_pos he, List.find?_cons_of_pos _ (by simp)]
        rfl
      · rw [List.map_cons, if_neg he, List.find?_cons_of_neg _ (by simp [he])]
        have hrest : rest.any (fun e => e.1 = k) := by
          rcases List.any_eq_true.mp hk with ⟨x, hx, hxk⟩
          rcases List.mem_cons.mp hx with rfl | hxr
          · exact absurd (by simpa using hxk) he
          · exact List.any_eq_true.mpr ⟨x, hxr, hxk⟩
        exact ih hrest
  · rw [if_neg hk, List.find?_append]
    have hnone : m.find? (fun e => decide (e.1 = k)) = none := by
      apply List.find?_eq_none.mpr
      intro e he
      simp only [decide_eq_true_eq]
      intro hek
      exact hk (List.any_eq_true.mpr ⟨e, he, by simpa using hek⟩)
    rw [hnone, Option.none_or, List.find?_cons_of_pos _ (by simp)]
    rfl

/-- Setting key `k` does not disturb other keys. -/
theorem amGet_set_ne {α : Type} (m : List (String × α)) (k p : String) (v : α)
    (h : p ≠ k) : amGet (amSet m k v) p = amGet m p := by
  unfold amGet amSet
  by_cases hk : m.any (fun e => e.1 = k)
  · rw [if_pos hk]
    clear hk
    induction m with
    | nil => rfl
    | cons e rest ih =>
      by_cases he : e.1 = k
      · rw [List.map_cons, if_pos he,
          List.find?_cons_of_neg _ (by simp [Ne.symm h]),
          List.find?_cons_of_neg _ (by simp [he, Ne.symm h])]
        exact ih
      · rw [List.map_cons, if_neg he]
        by_cases hp : e.1 = p
        · rw [List.find?_cons_of_pos _ (by simp [hp]),
            List.find?_cons_of_pos _ (by simp [hp])]
        · rw [List.find?_cons_of_neg _ (by simp [hp]),
            List.find?_cons_of_neg _ (by simp [hp])]
          exact ih
  · rw [if_neg hk, List.find?_append, List.find?_cons_of_neg _ (by simp [Ne.symm h])]
    simp

/-- Deleting key `k` makes it unreadable. -/
theorem amGet_del_self {α : Type} (m : List (String × α)) (k : String) :
    amGet (amDel m k) k = none := by
  unfold amGet amDel
  have : (m.filter (fun e => e.1 ≠ k)).find? (fun e => decide (e.1 = k)) = none := by
    apply List.find?_eq_none.mpr
    intro e he
    have := List.of_mem_filter he
    simpa using this
  rw [this]
  rfl

/-- Deleting key `k` does not disturb other keys. -/
theorem amGet_del_ne {α : Type} (m : List (String × α)) (k p : String) (h : p ≠ k) :
    amGet (amDel m k) p = amGet m p := by
  unfold amGet amDel
  induction m with
  | nil => rfl
  | cons e rest ih =>
    by_cases he : e.1 = k
    · rw [List.filter_cons_of_neg (by simp [he]),
        List.find?_cons_of_neg _ (by simp [he, Ne.symm h])]
      exact ih
    · rw [List.filter_cons_of_pos (by simp [he])]
      by_cases hp : e.1 = p
      · rw [List.find?_cons_of_pos _ (by simp [hp]), List.find?_cons_of_pos _ (by simp [hp])]
      · rw [List.find?_cons_of_neg _ (by simp [hp]), List.find?_cons_of_neg _ (by simp [hp])]
        exact ih

/-- `toolEditFile` snapshots the edited file before committing. -/
theorem toolEditFile_captures : capturesRevert toolEditFile := by
  intro env st args p hord hch
  have hc : ¬ ((st.revertOrder ++ [env.freshId st.idCounter]).length > MAX_REVERTS) := by
    simp only [List.length_append, List.length_cons, List.length_nil]
    omega
  unfold toolEditFile at hch ⊢
  cases hres : env.resolvePath (jsGet args "path") with
  | none => simp only [hres] at hch; exact absurd rfl hch
  | some fullPath =>
    simp only [hres] at hch ⊢
    cases hs : jsToNum (jsGet args "startLine") with
    | none => simp only [hs] at hch; exact absurd rfl hch
    | some sl =>
      cases he : jsToNum (jsGet args "endLine") with
      | none => simp only [hs, he] at hch; exact absurd rfl hch
      | some el =>
        simp only [hs, he] at hch ⊢
        by_cases hlt : el < sl
        · simp only [if_pos hlt] at hch; exact absurd rfl hch
        · simp only [if_neg hlt] at hch ⊢
          cases hdoc : fsGet st.fs fullPath with
          | none => simp only [hdoc] at hch; exact absurd rfl hch
          | some before =>
            simp only [hdoc] at hch ⊢
            by_cases happ : ¬ env.approve = true
            · simp only [if_pos happ] at hch; exact absurd rfl hch
            · simp only [if_neg happ, registerRevertChange, List.isEmpty_cons,
                Bool.false_eq_true, if_false, hc] at hch ⊢
              by_cases hp : p = fullPath
              · subst hp
                refine ⟨env.freshId st.idCounter,
                  { files := [{ path := p, existed := true, content := before }] },
                  { path := p, existed := true, content := before },
                  ?_, by simp, rfl, by simp [hdoc], by simp [hdoc]⟩
                exact amGet_set_self _ _ _
              · exact absurd (amGet_set_ne _ _ _ _ hp) hch

/-- `toolInsertText` snapshots the edited file before committing. -/
theorem toolInsertText_captures : capturesRevert toolInsertText := by
  intro env st args p hord hch
  have hc : ¬ ((st.revertOrder ++ [env.freshId st.idCounter]).length > MAX_REVERTS) := by
    simp only [List.length_append, List.length_cons, List.length_nil]
    omega
  unfold toolInsertText at hch ⊢
  cases hres : env.resolvePath (jsGet args "path") with
  | none => simp only [hres] at hch; exact absurd rfl hch
  | some fullPath =>
    simp only [hres] at hch ⊢
    cases hl : jsNum2 (jsGet (jsObjArg args "position") "line") (jsGet args "line") with
    | none => simp only [hl] at hch; exact absurd rfl hch
    | some l =>
      cases hcr : jsNum2 (jsGet (jsObjArg args "position") "character")
          (jsGet args "character") with
      | none => simp only [hl, hcr] at hch; exact absurd rfl hch
      | some c =>
        simp only [hl, hcr] at hch ⊢
        cases hdoc : fsGet st.fs fullPath with
        | none => simp only [hdoc] at hch; exact absurd rfl hch
        | some before =>
          simp only [hdoc] at hch ⊢
          by_cases happ : ¬ env.approve = true
          · simp only [if_pos happ] at hch; exact absurd rfl hch
          · simp only [if_neg happ, registerRevertChange, List.isEmpty_cons,
              Bool.false_eq_true, if_false, hc] at hch ⊢
            by_cases hp : p = fullPath
            · subst hp
              refine ⟨env.freshId st.idCounter,
                { files := [{ path := p, existed := true, content := before }] },
                { path := p, existed := true, content := before },
                ?_, by simp, rfl, by simp [hdoc], by simp [hdoc]⟩
              exact amGet_set_self _ _ _
            · exact absurd (amGet_set_ne _ _ _ _ hp) hch

/-- `toolReplaceRange` snapshots the edited file before committing. -/
theorem toolReplaceRange_captures : capturesRevert toolReplaceRange := by
  intro env st args p hord hch
  have hc : ¬ ((st.revertOrder ++ [env.freshId st.idCounter]).length > MAX_REVERTS) := by
    simp only [List.length_append, List.length_cons, List.length_nil]
    omega
  unfold toolReplaceRange at hch ⊢
  cases hres : env.resolvePath (jsGet args "path") with
  | none => simp only [hres] at hch; exact absurd rfl hch
  | some fullPath =>
    simp only [hres] at hch ⊢
    cases hsl : jsNum2 (jsGet (jsObjArg args "range") "startLine") (jsGet args "startLine") with
    | none => simp only [hsl] at hch; exact absurd rfl hch
    | some sl =>
      cases hsc : jsNum3 (jsGet (jsObjArg args "range") "startChar")
          (jsGet (jsObjArg args "range") "startCharacter") (jsGet args "startChar") with
      | none => simp only [hsl, hsc] at hch; exact absurd rfl hch
      | some sc =>
        cases hel : jsNum2 (jsGet (jsObjArg args "range") "endLine") (jsGet args "endLine") with
        | none => simp only [hsl, hsc, hel] at hch; exact absurd rfl hch
        | some el =>
          cases hec : jsNum3 (jsGet (jsObjArg args "range") "endChar")
              (jsGet (jsObjArg args "range") "endCharacter") (jsGet args "endChar") with
          | none => simp only [hsl, hsc, hel, hec] at hch; exact absurd rfl hch
          | some ec =>
            simp only [hsl, hsc, hel, hec] at hch ⊢
            cases hdoc : fsGet st.fs fullPath with
            | none => simp only [hdoc] at hch; exact absurd rfl hch
            | some before =>
              simp only [hdoc] at hch ⊢
              by_cases hlt : (clampPosition (splitRN before.toList) el ec true).1 <
                    (clampPosition (splitRN before.toList) sl sc true).1 ∨
                  ((clampPosition (splitRN before.toList) el ec true).1 =
                      (clampPosition (splitRN before.toList) sl sc true).1 ∧
                    (clampPosition (splitRN before.toList) el ec true).2 <
                      (clampPosition (splitRN before.toList) sl sc true).2)
              · simp only [if_pos hlt] at hch; exact absurd rfl hch
              · simp only [if_neg hlt] at hch ⊢
                by_cases happ : ¬ env.approve = true
                · simp only [if_pos happ] at hch; exact absurd rfl hch
                · simp only [if_neg happ, registerRevertChange, List.isEmpty_cons,
                    Bool.false_eq_true, if_false, hc] at hch ⊢
                  by_cases hp : p = fullPath
                  · subst hp
                    refine ⟨env.freshId st.idCounter,
                      { files := [{ path := p, existed := true, content := before }] },
                      { path := p, existed := true, content := before },
                      ?_, by simp, rfl, by simp [hdoc], by simp [hdoc]⟩
                    exact amGet_set_self _ _ _
                  · exact absurd (amGet_set_ne _ _ _ _ hp) hch

/-- `toolDeleteFile` snapshots the deleted file before committing. -/
theorem toolDeleteFile_captures : capturesRevert toolDeleteFile := by
  intro env st args p hord hch
  have hc : ¬ ((st.revertOrder ++ [env.freshId st.idCounter]).length > MAX_REVERTS) := by
    simp only [List.length_append, List.length_cons, List.length_nil]
    omega
  unfold toolDeleteFile at hch ⊢
  cases hres : env.resolvePath (jsGet args "path") with
  | none => simp only [hres] at hch; exact absurd rfl hch
  | some fullPath =>
    simp only [hres] at hch ⊢
    cases hdoc : fsGet st.fs fullPath with
    | none => simp only [hdoc] at hch; exact absurd rfl hch
    | some before =>
      simp only [hdoc] at hch ⊢
      by_cases happ : ¬ env.approve = true
      · simp only [if_pos happ] at hch; exact absurd rfl hch
      · simp only [if_neg happ, registerRevertChange, List.isEmpty_cons,
          Bool.false_eq_true, if_false, hc] at hch ⊢
        by_cases hp : p = fullPath
        · subst hp
          refine ⟨env.freshId st.idCounter,
            { files := [{ path := p, existed := true, content := before }] },
            { path := p, existed := true, content := before },
            ?_, by simp, rfl, by simp [hdoc], by simp [hdoc]⟩
          exact amGet_set_self _ _ _
        · exact absurd (amGet_del_ne _ _ _ hp) hch

/-- On the success path, `toolApplyPatch` registers exactly the pre-state
snapshot of every resolved patch target. -/
theorem toolApplyPatch_snapshot (env : ToolEnv) (st : ToolState) (args : JsValue)
    (cwdPath : String)
    (hord : st.revertOrder.length < MAX_REVERTS)
    (hp : patchTextOf args ≠ "")
    (hcwd : cwdOf env args = some cwdPath)
    (happ : env.approve = true)
    (hok : env.patchApplied = true)
    (hnb : patchBeforeFiles st.fs (patchTargetPaths env cwdPath (patchTextOf args)) ≠ []) :
    (toolApplyPatch env st args).1.fs = env.patchEffect st.fs ∧
    mapGetRC (toolApplyPatch env st args).1.revertChanges (env.freshId st.idCounter) =
      some { files := patchBeforeFiles st.fs (patchTargetPaths env cwdPath (patchTextOf args)) } := by
  have hc : ¬ ((st.revertOrder ++ [env.freshId st.idCounter]).length > MAX_REVERTS) := by
    simp only [List.length_append, List.length_cons, List.length_nil]
    omega
  unfold toolApplyPatch
  simp only [if_neg hp, hcwd, if_neg (show ¬ (¬ env.approve = true) from by simp [happ]),
    if_neg (show ¬ (¬ env.patchApplied = true) from by simp [hok]),
    registerRevertChange]
  rw [if_neg (show ¬ (RevertChange.mk
      (patchBeforeFiles st.fs (patchTargetPaths env cwdPath (patchTextOf args)))).files.isEmpty =
        true from by simpa [List.isEmpty_iff] using hnb)]
  simp only [if_neg hc, hc, if_false]
  exact ⟨trivial, amGet_set_self _ _ _⟩

/-- `toolMoveFile` never writes the revert ledger. -/
theorem toolMoveFile_ledger : ledgerUntouched toolMoveFile := by
  intro env st args
  unfold toolMoveFile
  repeat' (first | exact ⟨rfl, rfl⟩ | split | simp only [])

/-- `toolCopyFile` never writes the revert ledger. -/
theorem toolCopyFile_ledger : ledgerUntouched toolCopyFile := by
  intro env st args
  unfold toolCopyFile
  repeat' (first | exact ⟨rfl, rfl⟩ | split | simp only [])

/-- `toolCreateDir` never writes the revert ledger. -/
theorem toolCreateDir_ledger : ledgerUntouched toolCreateDir := by
  intro env st args
  unfold toolCreateDir
  repeat' (first | exact ⟨rfl, rfl⟩ | split)

/-- `toolRunCommand` never writes the revert ledger. -/
theorem toolRunCommand_ledger : ledgerUntouched toolRunCommand := by
  intro env st args
  unfold toolRunCommand
  repeat' (first | exact ⟨rfl, rfl⟩ | split | simp only [])

/-- `toolRenameApply` never writes the revert ledger. -/
theorem toolRenameApply_ledger : ledgerUntouched toolRenameApply := by
  intro env st args
  unfold toolRenameApply
  repeat' (first | exact ⟨rfl, rfl⟩ | split | simp only [])

/-- `toolWriteFile` never writes the revert ledger (the registration line
throws before recording anything). -/
theorem toolWriteFile_ledger : ledgerUntouched toolWriteFile := by
  intro env st args
  unfold toolWriteFile
  repeat' (first | exact ⟨rfl, rfl⟩ | split | simp only [])

set_option maxRecDepth 16384 in
/-- C3 counterexample: `move_file` moves a.txt to b.txt (changing b.txt's
content) yet registers no revert entry at all, so the claim that every
mutating tool snapshots the files it touches is false. -/
theorem moveFile_no_revert_entry : ¬ ClaimC3 := by
  intro h
  obtain ⟨-, -, -, -, -, -, -, -, hmove, -, -⟩ := h
  obtain ⟨id, ch, f, hget, -⟩ :=
    hmove sampleToolEnv sampleSt sampleMoveArgs "b.txt" (by decide) (by decide)
  have hled : (toolMoveFile sampleToolEnv sampleSt sampleMoveArgs).1.revertChanges = [] := rfl
  rw [hled] at hget
  simp [mapGetRC, amGet] at hget

/-- C3 amended: the single-file text tools (`edit_file`, `insert_text`,
`replace_range`, `delete_file`) snapshot the touched file before
committing, and `apply_patch` registers the pre-state of every resolved
patch target on success; but `write_file`, `create_dir`, `move_file`,
`copy_file`, `run_command` and `rename_apply` never write the revert
ledger (for `write_file` because the registration line throws). -/
theorem revert_snapshot_amended :
    capturesRevert toolEditFile ∧ capturesRevert toolInsertText ∧
    capturesRevert toolReplaceRange ∧ capturesRevert toolDeleteFile ∧
    (∀ (env : ToolEnv) (st : ToolState) (args : JsValue) (cwdPath : String),
      st.revertOrder.length < MAX_REVERTS →
      patchTextOf args ≠ "" → cwdOf env args = some cwdPath →
      env.approve = true → env.patchApplied = true →
      patchBeforeFiles st.fs (patchTargetPaths env cwdPath (patchTextOf args)) ≠ [] →
      (toolApplyPatch env st args).1.fs = env.patchEffect st.fs ∧
      mapGetRC (toolApplyPatch env st args).1.revertChanges (env.freshId st.idCounter) =
        some { files := patchBeforeFiles st.fs (patchTargetPaths env cwdPath (patchTextOf args)) }) ∧
    ledgerUntouched toolWriteFile ∧ ledgerUntouched toolCreateDir ∧
    ledgerUntouched toolMoveFile ∧ ledgerUntouched toolCopyFile ∧
    ledgerUntouched toolRunCommand ∧ ledgerUntouched toolRenameApply :=
  ⟨toolEditFile_captures, toolInsertText_captures, toolReplaceRange_captures,
    toolDeleteFile_captures,
    fun env st args cwdPath hord hp hcwd happ hok hnb =>
      toolApplyPatch_snapshot env st args cwdPath hord hp hcwd happ hok hnb,
    toolWriteFile_ledger, toolCreateDir_ledger, toolMoveFile_ledger, toolCopyFile_ledger,
    toolRunCommand_ledger, toolRenameApply_ledger⟩

set_option maxRecDepth 16384 in
/-- C3 amended, witnessed at concrete inputs: the sample edit registers a
snapshot of a.txt, and the sample move leaves the ledger untouched. -/
theorem revert_snapshot_amended_witness :
    (∃ id ch f,
      mapGetRC (toolEditFile sampleToolEnv sampleSt sampleEditArgs).1.revertChanges id =
        some ch ∧
      f ∈ ch.files ∧ f.path = "a.txt" ∧
      f.existed = (fsGet sampleSt.fs "a.txt").isSome ∧
      f.content = (fsGet sampleSt.fs "a.txt").getD "") ∧
    (toolMoveFile sampleToolEnv sampleSt sampleMoveArgs).1.revertChanges =
      sampleSt.revertChanges :=
  ⟨revert_snapshot_amended.1 sampleToolEnv sampleSt sampleEditArgs "a.txt"
      (by decide) (by decide),
    (revert_snapshot_amended.2.2.2.2.2.2.2.1 sampleToolEnv sampleSt sampleMoveArgs).1⟩

/-- C7: revert exactness. After an `edit_file` of an existing file, running
`revertChange` on the freshly registered id restores the file's content
byte-for-byte; and reverting a ledger entry whose file "did not exist"
before leaves that path absent from the workspace. -/
theorem revert_roundtrip :
    (∀ (env : ToolEnv) (st : ToolState) (args : JsValue) (fullPath before : String)
        (sl el : Int),
      env.resolvePath (jsGet args "path") = some fullPath →
      jsToNum (jsGet args "startLine") = some sl →
      jsToNum (jsGet args "endLine") = some el →
      ¬ el < sl →
      fsGet st.fs fullPath = some before →
      env.approve = true →
      st.revertOrder.length < MAX_REVERTS →
      jsTrim (env.freshId st.idCounter) = env.freshId st.idCounter →
      env.freshId st.idCounter ≠ "" →
      fullPath ≠ "" →
      fsGet (revertChange env (toolEditFile env st args).1 (env.freshId st.idCounter)).1.fs
        fullPath = some before) ∧
    (∀ (env : ToolEnv) (st : ToolState) (id fullPath c : String),
      mapGetRC st.revertChanges (jsTrim id) =
        some { files := [{ path := fullPath, existed := false, content := c }] } →
      jsTrim id ≠ "" →
      fullPath ≠ "" →
      fsGet (revertChange env st id).1.fs fullPath = none) := by
  constructor
  · intro env st args fullPath before sl el hres hsl hel hlt hdoc happ hord htrim hne hfp
    have hc : ¬ ((st.revertOrder ++ [env.freshId st.idCounter]).length > MAX_REVERTS) := by
      simp only [List.length_append, List.length_cons, List.length_nil]
      omega
    unfold toolEditFile
    simp only [hres, hsl, hel, if_neg hlt, hdoc,
      if_neg (show ¬ (¬ env.approve = true) from by simp [happ]),
      registerRevertChange, List.isEmpty_cons, Bool.false_eq_true, if_false, hc]
    unfold revertChange
    simp only [htrim, if_neg hne]
    have hlook : mapGetRC (mapSetRC st.revertChanges (env.freshId st.idCounter)
        { files := [{ path := fullPath, existed := true, content := before }] })
        (env.freshId st.idCounter) =
        some { files := [{ path := fullPath, existed := true, content := before }] } :=
      amGet_set_self _ _ _
    simp only [hlook, List.foldl_cons, List.foldl_nil, revertFileStep, if_neg hfp]
    exact amGet_set_self _ _ _
  · intro env st id fullPath c hm hid hfp
    unfold revertChange
    simp only [if_neg hid, hm, List.foldl_cons, List.foldl_nil, revertFileStep, if_neg hfp]
    cases hnow : fsGet st.fs fullPath with
    | none => simp [hnow]
    | some cur =>
      simp only [hnow]
      exact amGet_del_self _ _

set_option maxRecDepth 16384 in
/-- C7, witnessed at concrete inputs: editing a.txt ("A" to "B") and
reverting the registered id restores "A"; reverting the create-entry for
b.txt deletes it. -/
theorem revert_roundtrip_witness :
    fsGet (revertChange sampleToolEnv (toolEditFile sampleToolEnv sampleSt sampleEditArgs).1
        (sampleToolEnv.freshId sampleSt.idCounter)).1.fs "a.txt" = some "A" ∧
    fsGet (revertChange sampleToolEnv sampleCreateSt "R").1.fs "b.txt" = none :=
  ⟨revert_roundtrip.1 sampleToolEnv sampleSt sampleEditArgs "a.txt" "A" 1 1
      (by decide) (by decide) (by decide) (by decide) (by decide) (by decide) (by decide)
      (by decide) (by decide) (by decide),
    revert_roundtrip.2 sampleToolEnv sampleCreateSt "R" "b.txt" "" (by decide) (by decide)
      (by decide)⟩

/-- After processing any `run_command` call - executed or skipped - the
step leaves `lastCommandSignature` at that call's signature and
`sawMutationSinceCommand` cleared. -/
theorem runCommand_sets_signature (env : AgentEnv) (st : AgentSt) (call : JsValue)
    (h : callTool (normalizeToolCall call) = some "run_command") :
    (execToolCallStep env st call).lastCommandSignature =
      some (cmdSigOf (normalizeToolCall call)) ∧
    (execToolCallStep env st call).sawMutationSinceCommand = false := by
  have hmc : mutatingTools.contains "run_command" = true := by decide
  unfold execToolCallStep
  simp only [h, hmc, if_true, eq_self_iff_true]
  cases hl : st.lastCommandSignature with
  | none =>
    simp only [hl, Bool.false_and, Bool.false_eq_true, if_false, pushModel]
    exact ⟨trivial, trivial⟩
  | some s =>
    simp only [hl]
    by_cases hs : (s == cmdSigOf (normalizeToolCall call)) = true
    · cases hsaw : st.sawMutationSinceCommand with
      | false =>
        simp only [hs, hsaw, Bool.not_false, Bool.and_true, Bool.true_and, if_true, pushModel]
        refine ⟨?_, trivial⟩
        exact congrArg some (beq_iff_eq.mp hs)
      | true =>
        simp only [hs, hsaw, Bool.not_true, Bool.and_false, Bool.false_eq_true, if_false,
          pushModel]
        exact ⟨trivial, trivial⟩
    · simp only [Bool.eq_false_iff.mpr hs, Bool.false_and, Bool.false_eq_true, if_false,
        pushModel]
      exact ⟨trivial, trivial⟩

/-- A `run_command` call arriving when its signature matches the previous
command and no mutation happened since is skipped: nothing is executed,
and the skip text is fed back as an ordinary tool result. -/
theorem runCommand_matching_skips (env : AgentEnv) (st1 : AgentSt) (call : JsValue)
    (h : callTool (normalizeToolCall call) = some "run_command")
    (hl : st1.lastCommandSignature = some (cmdSigOf (normalizeToolCall call)))
    (hsaw : st1.sawMutationSinceCommand = false) :
    (execToolCallStep env st1 call).execLog = st1.execLog ∧
    (execToolCallStep env st1 call).uiMessages = st1.uiMessages ++
      [ChatMsg.mk "assistant" (env.describe (normalizeToolCall call)),
       ChatMsg.mk "assistant" (formatToolResultForUi "run_command" cmdSkipMsg)] ∧
    (execToolCallStep env st1 call).modelMessages =
      trimChatMessagesForModel
        (st1.modelMessages ++ [ChatMsg.mk "user" (formatToolResultForUi "run_command" cmdSkipMsg)])
        env.historyLimit := by
  have hmc : mutatingTools.contains "run_command" = true := by decide
  unfold execToolCallStep
  simp only [h, hmc, if_true, eq_self_iff_true, hl, hsaw, beq_self_eq_true, Bool.not_false,
    Bool.and_true, Bool.true_and, pushModel, List.append_assoc, List.cons_append,
    List.nil_append]
  exact ⟨trivial, trivial, trivial⟩

/-- C5: command dedup. For two consecutive `run_command` calls with the
same `{command, cwd, timeoutMs}` signature and nothing in between, the
second call is not executed (no new `runToolCall` event is logged); its
result in the transcript is the skip message, formatted and fed back like
a normal tool result. -/
theorem run_command_dedup (env : AgentEnv) (st : AgentSt) (call : JsValue)
    (h : callTool (normalizeToolCall call) = some "run_command") :
    (execToolCallStep env st call).lastCommandSignature =
      some (cmdSigOf (normalizeToolCall call)) ∧
    (execToolCallStep env st call).sawMutationSinceCommand = false ∧
    (execToolCallStep env (execToolCallStep env st call) call).execLog =
      (execToolCallStep env st call).execLog ∧
    (execToolCallStep env (execToolCallStep env st call) call).uiMessages =
      (execToolCallStep env st call).uiMessages ++
        [ChatMsg.mk "assistant" (env.describe (normalizeToolCall call)),
         ChatMsg.mk "assistant" (formatToolResultForUi "run_command" cmdSkipMsg)] ∧
    (execToolCallStep env (execToolCallStep env st call) call).modelMessages =
      trimChatMessagesForModel
        ((execToolCallStep env st call).modelMessages ++
          [ChatMsg.mk "user" (formatToolResultForUi "run_command" cmdSkipMsg)])
        env.historyLimit := by
  obtain ⟨h1, h2⟩ := runCommand_sets_signature env st call h
  obtain ⟨h3, h4, h5⟩ :=
    runCommand_matching_skips env (execToolCallStep env st call) call h h1 h2
  exact ⟨h1, h2, h3, h4, h5⟩

/-- C5, witnessed at a concrete call: the first `run_command` executes
(one logged execution), the immediate repeat executes nothing. -/
theorem run_command_dedup_witness :
    (execToolCallStep sampleAgentEnv
        (execToolCallStep sampleAgentEnv sampleAgentSt sampleRunCall) sampleRunCall).execLog =
      (execToolCallStep sampleAgentEnv sampleAgentSt sampleRunCall).execLog ∧
    (execToolCallStep sampleAgentEnv sampleAgentSt sampleRunCall).execLog =
      [normalizeToolCall sampleRunCall] := by
  refine ⟨(run_command_dedup sampleAgentEnv sampleAgentSt sampleRunCall rfl).2.2.1, ?_⟩
  rfl

/-- `dropWhile` is idempotent. -/
theorem dwIdem {α : Type} (p : α → Bool) (l : List α) :
    (l.dropWhile p).dropWhile p = l.dropWhile p := by
  induction l with
  | nil => rfl
  | cons c rest ih =>
    by_cases h : p c = true
    · simp [List.dropWhile_cons, h, ih]
    · simp [List.dropWhile_cons, h]

/-- The head surviving a `dropWhile` fails the predicate. -/
theorem dwHead {α : Type} (p : α → Bool) (l : List α) (a : α)
    (h : (List.dropWhile p l).head? = some a) : p a = false := by
  cases hd : List.dropWhile p l with
  | nil => rw [hd] at h; exact absurd h (by simp)
  | cons b t =>
    rw [hd] at h
    have hb : b = a := by simpa using h
    subst hb
    have := List.head_dropWhile_not p l (by rw [hd]; simp)
    simpa [hd] using this

/-- A non-empty `dropWhile` keeps the last element. -/
theorem dwGetLast {α : Type} (p : α → Bool) (l : List α)
    (h : List.dropWhile p l ≠ []) : (List.dropWhile p l).getLast? = l.getLast? := by
  induction l with
  | nil => rfl
  | cons c t ih =>
    by_cases hc : p c = true
    · rw [List.dropWhile_cons, if_pos hc] at h ⊢
      have ht : t ≠ [] := by
        intro he
        rw [he] at h
        exact h rfl
      rw [ih h]
      cases t with
      | nil => exact absurd rfl ht
      | cons d u => rw [List.getLast?_cons_cons]
    · rw [List.dropWhile_cons, if_neg hc]

/-- `dropWhile` fixes a list whose head fails the predicate. -/
theorem dwSelf {α : Type} (p : α → Bool) (l : List α)
    (h : ∀ a, l.head? = some a → p a = false) : List.dropWhile p l = l := by
  cases l with
  | nil => rfl
  | cons c t =>
    rw [List.dropWhile_cons, if_neg]
    rw [h c rfl]
    simp

/-- `s.trim().trim() === s.trim()`. -/
theorem jsTrim_idem (s : String) : jsTrim (jsTrim s) = jsTrim s := by
  unfold jsTrim
  have h1 : List.dropWhile jsIsSpace
      ((List.dropWhile jsIsSpace (List.dropWhile jsIsSpace s.toList).reverse).reverse) =
      (List.dropWhile jsIsSpace (List.dropWhile jsIsSpace s.toList).reverse).reverse := by
    apply dwSelf
    intro a ha
    rw [List.head?_reverse] at ha
    rcases eq_or_ne (List.dropWhile jsIsSpace
        (List.dropWhile jsIsSpace s.toList).reverse) [] with hnil | hne
    · rw [hnil] at ha; exact absurd ha (by simp)
    · rw [dwGetLast jsIsSpace _ hne, List.getLast?_eq_head?_reverse,
        List.reverse_reverse] at ha
      exact dwHead jsIsSpace s.toList a ha
  show String.mk (((String.mk _).toList.dropWhile jsIsSpace).reverse.dropWhile
      jsIsSpace).reverse = _
  rw [show (String.mk ((List.dropWhile jsIsSpace
      (List.dropWhile jsIsSpace s.toList).reverse).reverse)).toList =
      (List.dropWhile jsIsSpace (List.dropWhile jsIsSpace s.toList).reverse).reverse from rfl]
  rw [h1, List.reverse_reverse, dwIdem]

/-- `normalizeTodoItem` fixes an already normalized item, at any index. -/
theorem normItemT_self (it : TodoItem) (hid : it.id ≠ "")
    (htext : jsTrim it.text = it.text) (hne : it.text ≠ "")
    (hst : it.status = "done" ∨ it.status = "pending") (i : Nat) :
    normalizeTodoItemT it i = some it := by
  obtain ⟨iid, itext, istatus⟩ := it
  simp only at hid htext hne hst
  unfold normalizeTodoItemT
  simp only [htext, if_neg hne, if_pos hid]
  rcases hst with hs | hs <;> subst hs
  · rw [show jsLower "done" = "done" from by decide]
    rw [if_pos (Or.inl rfl)]
  · rw [show jsLower "pending" = "pending" from by decide]
    rw [if_neg (by decide)]

/-- Every output of `normalizeTodoItem` is normalized. -/
theorem normItemT_norm (src it : TodoItem) (i : Nat)
    (h : normalizeTodoItemT src i = some it) :
    it.id ≠ "" ∧ jsTrim it.text = it.text ∧ it.text ≠ "" ∧
    (it.status = "done" ∨ it.status = "pending") := by
  unfold normalizeTodoItemT at h
  by_cases hne : jsTrim src.text = ""
  · rw [if_pos hne] at h
    exact absurd h (by simp)
  · rw [if_neg hne] at h
    have hit : it = { id := if src.id ≠ "" then src.id else "todo_" ++ toString (i + 1)
                      text := jsTrim src.text
                      status := if jsLower src.status = "done" ∨ jsLower src.status = "complete"
                        then "done" else "pending" } := by
      exact (Option.some.injEq _ _ ▸ h.symm : _)
    subst hit
    refine ⟨?_, jsTrim_idem _, hne, ?_⟩
    · by_cases hsid : src.id ≠ ""
      · simp [hsid]
      · simp only [hsid, if_false, if_neg hsid]
        intro he
        have hlen := congrArg String.length he
        simp [String.length_append] at hlen
        exact absurd hlen.1 (by decide)
    · by_cases hd : jsLower src.status = "done" ∨ jsLower src.status = "complete"
      · simp [hd]
      · simp [hd]

/-- The enumerated `filterMap` of `normalizeTodoList` fixes a list whose
items normalize to themselves, from any start index. -/
theorem normListT_fix_from (l : List TodoItem)
    (h : ∀ it ∈ l, ∀ i, normalizeTodoItemT it i = some it) :
    ∀ n, (List.enumFrom n l).filterMap (fun p => normalizeTodoItemT p.2 p.1) = l := by
  induction l with
  | nil => intro n; rfl
  | cons c t ih =>
    intro n
    rw [List.enumFrom_cons, List.filterMap_cons]
    rw [h c (List.mem_cons_self c t) n]
    rw [ih (fun it hm i => h it (List.mem_cons_of_mem c hm) i) (n + 1)]

/-- `normalizeTodoList` fixes a list of already normalized items. -/
theorem normListT_fix (l : List TodoItem)
    (h : ∀ it ∈ l, ∀ i, normalizeTodoItemT it i = some it) :
    normalizeTodoListT l = l := by
  unfold normalizeTodoListT
  show (List.enumFrom 0 l).filterMap (fun p => normalizeTodoItemT p.2 p.1) = l
  exact normListT_fix_from l h 0

/-- Members of a normalized list are normalized. -/
theorem normListT_mem (l : List TodoItem) (it : TodoItem)
    (h : it ∈ normalizeTodoListT l) :
    it.id ≠ "" ∧ jsTrim it.text = it.text ∧ it.text ≠ "" ∧
    (it.status = "done" ∨ it.status = "pending") := by
  unfold normalizeTodoListT at h
  obtain ⟨p, hp, hsome⟩ := List.mem_filterMap.mp h
  exact normItemT_norm p.2 it p.1 hsome

/-- `normalizeTodoList` is idempotent. -/
theorem normListT_idem (l : List TodoItem) :
    normalizeTodoListT (normalizeTodoListT l) = normalizeTodoListT l := by
  apply normListT_fix
  intro it hm i
  obtain ⟨h1, h2, h3, h4⟩ := normListT_mem l it hm
  exact normItemT_self it h1 h2 h3 h4 i

/-- A hit in one of the merge lookup maps is an element of the backing
list. -/
theorem mapLast_mem (l : List TodoItem) (g : TodoItem → String) (k : String)
    (e : TodoItem) (h : mapLast (l.map fun it => (g it, it)) k = some e) : e ∈ l := by
  unfold mapLast at h
  cases hf : (l.map fun it => (g it, it)).reverse.find? (fun p => p.1 = k) with
  | none => rw [hf] at h; exact absurd h (by simp)
  | some pr =>
    rw [hf] at h
    have hmem := List.mem_of_find?_eq_some hf
    rw [List.mem_reverse, List.mem_map] at hmem
    obtain ⟨it, hit, heq⟩ := hmem
    have h2 : pr.2 = it := by rw [← heq]
    have he : e = pr.2 := by simpa using h.symm
    rw [he, h2]
    exact hit

/-- Merging a pending incoming item against an all-pending current list
leaves it unchanged. -/
theorem mergeMapStep_pending (cur : List TodoItem) (it0 : TodoItem)
    (hcur : ∀ it ∈ cur, it.status = "pending") (h0 : it0.status = "pending") :
    mergeMapStep cur it0 = it0 := by
  unfold mergeMapStep
  cases hl : (mapLast (cur.map fun it => (it.id, it)) it0.id).orElse
      (fun _ => mapLast (cur.map fun it => (jsLower it.text, it)) (jsLower it0.text)) with
  | none => simp only [hl]
  | some existing =>
    have hmem : existing ∈ cur := by
      rcases (Option.orElse_eq_some' _ _ _).mp hl with h | ⟨-, h⟩
      · exact mapLast_mem cur (fun it => it.id) it0.id existing h
      · exact mapLast_mem cur (fun it => jsLower it.text) (jsLower it0.text) existing h
    have hex := hcur existing hmem
    simp only [hl, hex, h0]
    rw [if_neg (by decide : ¬ ("pending" = "done" ∨ "pending" = "done"))]
    obtain ⟨a, b, c⟩ := it0
    simp only at h0
    rw [h0]

/-- The re-append loop of `mergeTodoLists` adds nothing when the current
list holds no done item. -/
theorem foldl_mergeAppend (cur : List TodoItem)
    (h : ∀ it ∈ cur, it.status ≠ "done") :
    ∀ acc, cur.foldl mergeAppendStep acc = acc := by
  induction cur with
  | nil => intro acc; rfl
  | cons c t ih =>
    intro acc
    rw [List.foldl_cons]
    have hc : mergeAppendStep acc c = acc := by
      unfold mergeAppendStep
      rw [if_pos (h c (List.mem_cons_self c t))]
    rw [hc]
    exact ih (fun it hm => h it (List.mem_cons_of_mem c hm)) acc

/-- Merging into an empty current list yields the normalized incoming
list. -/
theorem merge_into_empty (inc : List TodoItem) (hne : normalizeTodoListT inc ≠ []) :
    mergeTodoLists [] inc = normalizeTodoListT inc := by
  unfold mergeTodoLists
  rw [if_neg (by simpa [List.isEmpty_iff] using hne)]
  have hemp : normalizeTodoListT ([] : List TodoItem) = [] := rfl
  simp only [hemp, List.foldl_nil]
  have hmap : ∀ it ∈ normalizeTodoListT inc, mergeMapStep [] it = it := by
    intro it _
    unfold mergeMapStep
    simp [mapLast]
  exact List.map_congr_left hmap |>.trans (List.map_id _)

/-- An all-pending normalized list is a fixpoint of re-merging the same
incoming list. -/
theorem merge_stable (inc : List TodoItem)
    (hP : ∀ it ∈ normalizeTodoListT inc, it.status = "pending")
    (hne : normalizeTodoListT inc ≠ []) :
    mergeTodoLists (normalizeTodoListT inc) inc = normalizeTodoListT inc := by
  unfold mergeTodoLists
  rw [if_neg (by simpa [List.isEmpty_iff] using hne)]
  rw [normListT_idem]
  show List.foldl mergeAppendStep
      (List.map (mergeMapStep (normalizeTodoListT inc)) (normalizeTodoListT inc))
      (normalizeTodoListT inc) = normalizeTodoListT inc
  have hmap : ∀ it ∈ normalizeTodoListT inc,
      mergeMapStep (normalizeTodoListT inc) it = it := by
    intro it hm
    exact mergeMapStep_pending _ _ hP (hP it hm)
  rw [List.map_congr_left hmap, List.map_id'' (fun _ => rfl)]
  exact foldl_mergeAppend _ (fun it hm => by rw [hP it hm]; decide) _

/-- An all-pending list is its own pending sublist. -/
theorem getPendingTodos_all (l : List TodoItem)
    (h : ∀ it ∈ l, it.status = "pending") : getPendingTodos l = l := by
  unfold getPendingTodos
  apply List.filter_eq_self.mpr
  intro it hm
  rw [h it hm]
  decide

/-- The trim scan only extends its accumulator. -/
theorem trimScanGo_prefix (hl : Nat) :
    ∀ (rest : List ChatMsg) (total : Nat) (out : List ChatMsg),
    ∃ ext, trimScanGo hl rest total out = out ++ ext := by
  intro rest
  induction rest with
  | nil => exact fun total out => ⟨[], by simp [trimScanGo]⟩
  | cons m r ih =>
    intro total out
    unfold trimScanGo
    by_cases hc : total + m.content.length > hl
    · rw [if_pos hc]
      exact ih total out
    · rw [if_neg hc]
      by_cases hg : total + m.content.length ≥ hl
      · refine ⟨[m], ?_⟩
        simp only [if_pos hg]
      · obtain ⟨ext, he⟩ := ih (total + m.content.length) (out ++ [m])
        refine ⟨[m] ++ ext, ?_⟩
        simp only [if_neg hg, he, List.append_assoc]

/-- Trimming a non-empty transcript never empties it. -/
theorem trim_ne_nil (msgs : List ChatMsg) (hl : Nat) (h : msgs ≠ []) :
    trimChatMessagesForModel msgs hl ≠ [] := by
  unfold trimChatMessagesForModel
  rw [if_neg (by simpa [List.isEmpty_iff] using h)]
  by_cases h0 : hl = 0
  · rw [if_pos h0]; simp
  · rw [if_neg h0]
    cases hr : msgs.reverse with
    | nil => exact absurd (by simpa using hr) h
    | cons lastM restRev =>
      simp only []
      by_cases hlen : lastM.content.length > hl
      · rw [if_pos hlen]; simp
      · rw [if_neg hlen]
        by_cases hge : lastM.content.length ≥ hl
        · rw [if_pos hge]; simp
        · rw [if_neg hge]
          obtain ⟨ext, he⟩ := trimScanGo_prefix hl restRev lastM.content.length [lastM]
          rw [he]
          simp

/-- A repeated-signature step of the stub-driven loop: the model returns
the same bare todo list, the signature matches, one corrective message is
pushed and the loop continues. -/
theorem stub_step (env : AgentEnv) (t : String) (p : ParsedResp) (inc : List TodoItem)
    (hcm : ∀ ms, env.callModel ms = t)
    (hstop : ∀ n, env.stopAt n = false)
    (hpp : parseAgentResponse env.parse t = some p)
    (hfin : p.final = none) (htc : p.toolCalls = none) (htd : p.todo = some inc)
    (hb : isBareTodoResponse p t = true)
    (ht : ¬ jsTrim t = "")
    (hP : ∀ it ∈ normalizeTodoListT inc, it.status = "pending")
    (hne : normalizeTodoListT inc ≠ [])
    (k : Nat) (st : AgentSt)
    (htodos : st.todos = normalizeTodoListT inc)
    (hsig : st.lastBareTodoSignature = some (normalizeTodoListT inc)) :
    runAgentStep env k st = Sum.inr
      { st with
          todos := normalizeTodoListT inc
          bareTodoRepeatCount := st.bareTodoRepeatCount + 1
          modelMessages := trimChatMessagesForModel
            ((trimChatMessagesForModel (st.modelMessages ++ [ChatMsg.mk "assistant" t])
              env.historyLimit) ++ [ChatMsg.mk "user" correctiveMsg]) env.historyLimit
          correctiveCount := st.correctiveCount + 1 } := by
  have hge : st.bareTodoRepeatCount + 1 ≥ 1 := Nat.succ_le_succ (Nat.zero_le _)
  have hpend : getPendingTodos (normalizeTodoListT inc) = normalizeTodoListT inc :=
    getPendingTodos_all _ hP
  unfold runAgentStep
  simp only [hstop k, Bool.false_eq_true, if_false, hcm, ht, hpp, hfin, htc, htd, hb,
    applyTodoUpdate, pushModel, htodos, merge_stable inc hP hne, hsig, hpend,
    not_true, if_true, Option.isSome_some, and_self, Option.map_some', hge,
    List.isEmpty_iff, hne, not_false_iff, ite_false, ite_true]

/-- The first step of the stub-driven loop from an empty todo list: the
todo list is seeded, the signature recorded, no corrective yet. -/
theorem stub_step0 (env : AgentEnv) (t : String) (p : ParsedResp) (inc : List TodoItem)
    (hcm : ∀ ms, env.callModel ms = t)
    (hstop : ∀ n, env.stopAt n = false)
    (hpp : parseAgentResponse env.parse t = some p)
    (hfin : p.final = none) (htc : p.toolCalls = none) (htd : p.todo = some inc)
    (hb : isBareTodoResponse p t = true)
    (ht : ¬ jsTrim t = "")
    (hP : ∀ it ∈ normalizeTodoListT inc, it.status = "pending")
    (hne : normalizeTodoListT inc ≠ [])
    (k : Nat) (st : AgentSt)
    (htodos : st.todos = [])
    (hsig : st.lastBareTodoSignature = none) :
    runAgentStep env k st = Sum.inr
      { st with
          todos := normalizeTodoListT inc
          lastBareTodoSignature := some (normalizeTodoListT inc)
          bareTodoRepeatCount := 0
          modelMessages := trimChatMessagesForModel
            (st.modelMessages ++ [ChatMsg.mk "assistant" t]) env.historyLimit } := by
  have hpend : getPendingTodos (normalizeTodoListT inc) = normalizeTodoListT inc :=
    getPendingTodos_all _ hP
  have hx : (some (normalizeTodoListT inc) = (none : Option (List TodoItem))) = False := by
    simp
  have h01 : ¬ ((1 : Nat) ≤ 0) := by decide
  unfold runAgentStep
  simp only [hstop k, Bool.false_eq_true, if_false, hcm, ht, hpp, hfin, htc, htd, hb,
    applyTodoUpdate, pushModel, htodos, merge_into_empty inc hne, hsig, hpend,
    not_true, if_true, Option.isSome_some, Option.map_some', hx, and_false, if_false,
    List.isEmpty_iff, hne, not_false_iff, ite_false, ite_true, ge_iff_le, h01]

/-- The stub-driven loop hits the step limit, emitting one corrective per
remaining step and preserving a non-empty `modelMessages` continuation. -/
theorem stub_loop (env : AgentEnv) (t : String) (p : ParsedResp) (inc : List TodoItem)
    (hcm : ∀ ms, env.callModel ms = t)
    (hstop : ∀ n, env.stopAt n = false)
    (hpp : parseAgentResponse env.parse t = some p)
    (hfin : p.final = none) (htc : p.toolCalls = none) (htd : p.todo = some inc)
    (hb : isBareTodoResponse p t = true)
    (ht : ¬ jsTrim t = "")
    (hP : ∀ it ∈ normalizeTodoListT inc, it.status = "pending")
    (hne : normalizeTodoListT inc ≠ []) :
    ∀ (fuel k : Nat) (st : AgentSt),
      st.todos = normalizeTodoListT inc →
      st.lastBareTodoSignature = some (normalizeTodoListT inc) →
      st.modelMessages ≠ [] →
      ∃ stF : AgentSt,
        runAgentLoopGo env fuel k st = (AgentOutcome.stepLimit, stF, some stF.modelMessages) ∧
        stF.correctiveCount = st.correctiveCount + fuel ∧
        stF.execLog = st.execLog ∧
        stF.modelMessages ≠ [] := by
  intro fuel
  induction fuel with
  | zero =>
    intro k st h1 h2 h3
    refine ⟨{ st with uiMessages := st.uiMessages ++
        [ChatMsg.mk "assistant" "Agent stopped: too many tool steps."] }, ?_, rfl, rfl, h3⟩
    unfold runAgentLoopGo
    rw [if_neg (by simpa [List.isEmpty_iff] using h3)]
  | succ f ih =>
    intro k st h1 h2 h3
    have hstep := stub_step env t p inc hcm hstop hpp hfin htc htd hb ht hP hne k st h1 h2
    have h3' : (trimChatMessagesForModel
        ((trimChatMessagesForModel (st.modelMessages ++ [ChatMsg.mk "assistant" t])
          env.historyLimit) ++ [ChatMsg.mk "user" correctiveMsg]) env.historyLimit) ≠ [] :=
      trim_ne_nil _ _ (by simp)
    obtain ⟨stF, he, hc, hl, hm⟩ := ih (k + 1)
      { st with
          todos := normalizeTodoListT inc
          bareTodoRepeatCount := st.bareTodoRepeatCount + 1
          modelMessages := trimChatMessagesForModel
            ((trimChatMessagesForModel (st.modelMessages ++ [ChatMsg.mk "assistant" t])
              env.historyLimit) ++ [ChatMsg.mk "user" correctiveMsg]) env.historyLimit
          correctiveCount := st.correctiveCount + 1 }
      rfl h2 h3'
    refine ⟨stF, ?_, ?_, hl, hm⟩
    · unfold runAgentLoopGo
      rw [hstep]
      exact he
    · rw [hc]
      show st.correctiveCount + 1 + f = st.correctiveCount + (f + 1)
      omega

/-- Full analysis of a stub-driven agent turn: step-limit outcome,
continuation preserved, `maxSteps - 1` correctives, no tool executions. -/
theorem stub_turn_analysis (env : AgentEnv) (base : List ChatMsg) (t : String)
    (p : ParsedResp) (inc : List TodoItem)
    (hcm : ∀ ms, env.callModel ms = t)
    (hstop : ∀ n, env.stopAt n = false)
    (hpp : parseAgentResponse env.parse t = some p)
    (hfin : p.final = none) (htc : p.toolCalls = none) (htd : p.todo = some inc)
    (hb : isBareTodoResponse p t = true)
    (ht : ¬ jsTrim t = "")
    (hP : ∀ it ∈ normalizeTodoListT inc, it.status = "pending")
    (hne : normalizeTodoListT inc ≠ [])
    (hms : 1 ≤ env.maxSteps) :
    (runAgentTurn env base [] []).1 = AgentOutcome.stepLimit ∧
    (runAgentTurn env base [] []).2.2 = some (runAgentTurn env base [] []).2.1.modelMessages ∧
    (runAgentTurn env base [] []).2.1.modelMessages ≠ [] ∧
    (runAgentTurn env base [] []).2.1.correctiveCount = env.maxSteps - 1 ∧
    (runAgentTurn env base [] []).2.1.execLog = [] := by
  obtain ⟨f, hf⟩ : ∃ f, env.maxSteps = f + 1 := ⟨env.maxSteps - 1, by omega⟩
  unfold runAgentTurn
  rw [hf]
  set st0 : AgentSt :=
    { uiMessages := base
      modelMessages := if ¬ ([] : List ChatMsg).isEmpty then [] else base
      todos := []
      lastBareTodoSignature := none
      bareTodoRepeatCount := 0
      lastCommandSignature := none
      sawMutationSinceCommand := false
      mutationSinceProblems := false
      execLog := []
      correctiveCount := 0 } with hst0
  have hstep0 := stub_step0 env t p inc hcm hstop hpp hfin htc htd hb ht hP hne 0 st0
    rfl rfl
  have h3' : (trimChatMessagesForModel (st0.modelMessages ++ [ChatMsg.mk "assistant" t])
      env.historyLimit) ≠ [] := trim_ne_nil _ _ (by simp)
  obtain ⟨stF, he, hc, hl, hm⟩ := stub_loop env t p inc hcm hstop hpp hfin htc htd hb ht hP hne
    f 1
    { st0 with
        todos := normalizeTodoListT inc
        lastBareTodoSignature := some (normalizeTodoListT inc)
        bareTodoRepeatCount := 0
        modelMessages := trimChatMessagesForModel
          (st0.modelMessages ++ [ChatMsg.mk "assistant" t]) env.historyLimit }
    rfl rfl h3'
  have hrun : runAgentLoopGo env (f + 1) 0 st0 =
      (AgentOutcome.stepLimit, stF, some stF.modelMessages) := by
    unfold runAgentLoopGo
    rw [hstep0]
    exact he
  rw [hrun]
  refine ⟨rfl, rfl, hm, ?_, ?_⟩
  · rw [hc]
    simp [hf]
  · rw [hl]

set_option maxRecDepth 16384 in
/-- The stub response parses to `c2P`. -/
theorem c2_hparse : parseAgentResponse c2Env.parse c2Text = some c2P := rfl

set_option maxRecDepth 16384 in
/-- The stub response is a bare todo response. -/
theorem c2_hbare : isBareTodoResponse c2P c2Text = true := rfl

set_option maxRecDepth 16384 in
/-- C2 counterexample: with the default step budget of 6, the stub-driven
loop emits a corrective instruction on every repeated step - five in
total, not at most one. -/
theorem agent_corrective_every_step : ¬ ClaimC2 := by
  intro h
  have hc := (h c2Env [] c2Text c2P c2Inc (fun _ => rfl) (fun _ => rfl) c2_hparse
    rfl rfl rfl c2_hbare (by decide) (by decide) (by decide)).1
  have hcount := (stub_turn_analysis c2Env [] c2Text c2P c2Inc (fun _ => rfl) (fun _ => rfl)
    c2_hparse rfl rfl rfl c2_hbare (by decide) (by decide) (by decide) (by decide)).2.2.2.1
  rw [hcount] at hc
  exact absurd hc (by decide)

/-- C2 amended: under the bare-todo model stub the loop always terminates
at the fixed step limit (it cannot loop forever), emitting the
`Agent stopped: too many tool steps.` outcome with the non-empty
`modelMessages` kept as the resumable continuation; but a corrective
instruction is pushed on every repeated step - `maxSteps - 1` of them in
a turn - not at most one. -/
theorem agent_bare_todo_amended (env : AgentEnv) (base : List ChatMsg) (t : String)
    (p : ParsedResp) (inc : List TodoItem)
    (hcm : ∀ ms, env.callModel ms = t)
    (hstop : ∀ n, env.stopAt n = false)
    (hpp : parseAgentResponse env.parse t = some p)
    (hfin : p.final = none) (htc : p.toolCalls = none) (htd : p.todo = some inc)
    (hb : isBareTodoResponse p t = true)
    (ht : ¬ jsTrim t = "")
    (hP : ∀ it ∈ normalizeTodoListT inc, it.status = "pending")
    (hne : normalizeTodoListT inc ≠ [])
    (hms : 1 ≤ env.maxSteps) :
    (runAgentTurn env base [] []).1 = AgentOutcome.stepLimit ∧
    (runAgentTurn env base [] []).2.2 = some (runAgentTurn env base [] []).2.1.modelMessages ∧
    (runAgentTurn env base [] []).2.1.modelMessages ≠ [] ∧
    (runAgentTurn env base [] []).2.1.correctiveCount = env.maxSteps - 1 ∧
    (runAgentTurn env base [] []).2.1.execLog = [] :=
  stub_turn_analysis env base t p inc hcm hstop hpp hfin htc htd hb ht hP hne hms

set_option maxRecDepth 16384 in
/-- C2 amended, witnessed on the concrete stub: the turn ends at the step
limit with exactly five correctives and no tool executions. -/
theorem agent_bare_todo_amended_witness :
    (runAgentTurn c2Env [] [] []).1 = AgentOutcome.stepLimit ∧
    (runAgentTurn c2Env [] [] []).2.1.correctiveCount = 5 ∧
    (runAgentTurn c2Env [] [] []).2.1.execLog = [] := by
  have h := agent_bare_todo_amended c2Env [] c2Text c2P c2Inc (fun _ => rfl) (fun _ => rfl)
    c2_hparse rfl rfl rfl c2_hbare (by decide) (by decide) (by decide) (by decide)
  refine ⟨h.1, ?_, h.2.2.2.2⟩
  rw [h.2.2.2.1]
  rfl
